import Mathlib

/-!
Shallow embedding of the SLPN core: the graph IR (`src/graph.rs`) and the
reuse-interval histogram engine (`src/simulator/mod.rs`).

Modelling conventions:
* The arena is a table `List Graph`; a node identity (its storage address in
  Rust) is its index into the table.  A nullable node pointer is `Option Nat`.
* Opaque affine expressions (`&Expr`) are modelled by their identity, a `Nat`.
* `FxHashMap usize usize` and `BTreeMap usize usize` are modelled as
  association lists `List (Nat × Nat)`; insertion of a fresh key appends.
* Cyclic traversals (`populate_node_info_impl`, `Graph::format`) are embedded
  with explicit fuel and return `none` on fuel exhaustion; termination of the
  Rust code corresponds to the theorem that fuel `store.length + 1` always
  suffices.
-/

/-- Association-list lookup, modelling `HashMap::get` / `Entry` inspection. -/
def lookupKey : List (Nat × Nat) → Nat → Option Nat
  | [], _ => none
  | (k, v) :: rest, key => if key = k then some v else lookupKey rest key

/-- Association-list store, modelling `HashMap` insertion / in-place update:
replaces the value when the key is present, appends otherwise. -/
def setKey : List (Nat × Nat) → Nat → Nat → List (Nat × Nat)
  | [], key, val => [(key, val)]
  | (k, v) :: rest, key, val =>
      if key = k then (k, val) :: rest else (k, v) :: setKey rest key val

/-- A reuse-interval histogram, modelling `BTreeMap<usize, usize>`. -/
abbrev Hist := List (Nat × Nat)

/-- `node_info.entry(interval).and_modify(|e| *e += 1).or_insert(1)`. -/
def histIncr : Hist → Nat → Hist
  | [], k => [(k, 1)]
  | (k', v) :: rest, k =>
      if k = k' then (k', v + 1) :: rest else (k', v) :: histIncr rest k

/-- The occurrence count stored for interval `k` (0 when absent). -/
def histCount (h : Hist) (k : Nat) : Nat := (lookupKey h k).getD 0

/-- The sum of all occurrence counts of one histogram. -/
def histTotal (h : Hist) : Nat := (h.map Prod.snd).sum

/-- The graph IR node (`enum Graph` in `src/graph.rs`); links are optional
node identities into the arena table, expressions are opaque identities. -/
inductive Graph where
  | start (next : Option Nat)
  | end_
  | access (memref : Nat) (offset : Nat) (next : Option Nat)
  | update (ivar : Nat) (expr : Nat) (next : Option Nat)
  | branch (ivar : Nat) (bound : Nat) (then_ : Option Nat) (else_ : Option Nat)
deriving DecidableEq

/-- `struct SimulationCtx` from `src/simulator/mod.rs`. -/
structure SimulationCtx where
  block_size : Nat
  vaddrs : List Nat
  logic_time : Nat
  node_info : List Hist
  address_map : List (Nat × Nat)
  access_time : List (Nat × Nat)
deriving DecidableEq

/-- `SimulationCtx::access`.  Reads the clock, advances it, and either records
a first touch or increments the histogram of `node_id` at `time - prev`.
(The `prev = time` guard mirrors the `*last_access != time` test; Rust's
`entry(..).or_insert(time)` makes a freshly inserted entry equal `time`.) -/
def SimulationCtx.access (c : SimulationCtx) (node_id block_id : Nat) :
    SimulationCtx :=
  let time := c.logic_time
  match lookupKey c.access_time block_id with
  | none =>
      { c with
          logic_time := time + 1
          access_time := setKey c.access_time block_id time }
  | some prev =>
      if prev = time then { c with logic_time := time + 1 }
      else
        { c with
            logic_time := time + 1
            node_info :=
              c.node_info.set node_id
                (histIncr (c.node_info.getD node_id []) (time - prev))
            access_time := setKey c.access_time block_id time }

/-- `SimulationCtx::new`. -/
def SimulationCtx.new (block_size : Nat) (vaddrs : List Nat) : SimulationCtx :=
  { block_size := block_size
    vaddrs := vaddrs
    logic_time := 0
    node_info := []
    address_map := []
    access_time := [] }

/-- The keys of an association list. -/
def keysOf (m : List (Nat × Nat)) : List Nat := m.map Prod.fst

/-- The `self.address_map.entry(nonnull).or_insert_with(...)` step of
`populate_node_info_impl`: assign the next dense index and push an empty
histogram, unless the identity is already indexed. -/
def addIndex (c : SimulationCtx) (g : Nat) : SimulationCtx :=
  match lookupKey c.address_map g with
  | some _ => c
  | none =>
      { c with
          address_map := c.address_map ++ [(g, c.node_info.length)]
          node_info := c.node_info ++ [[]] }

/-- `SimulationCtx::populate_node_info_impl`, fuel-indexed.  A call first
checks the visited set, inserts the node, then dispatches on the variant;
a `Branch` recurses only when both children are present. -/
def populate_node_info_impl (store : List Graph) :
    Nat → Nat → SimulationCtx → List Nat → Option (SimulationCtx × List Nat)
  | 0, _, _, _ => none
  | fuel + 1, g, c, visited =>
    if g ∈ visited then some (c, visited)
    else
      match store[g]? with
      | some (Graph.start (some x)) =>
          populate_node_info_impl store fuel x c (g :: visited)
      | some (Graph.access _ _ next) =>
          match next with
          | some x => populate_node_info_impl store fuel x (addIndex c g) (g :: visited)
          | none => some (addIndex c g, g :: visited)
      | some (Graph.update _ _ (some x)) =>
          populate_node_info_impl store fuel x c (g :: visited)
      | some (Graph.branch _ _ (some x) (some y)) =>
          match populate_node_info_impl store fuel x c (g :: visited) with
          | some (c1, v1) => populate_node_info_impl store fuel y c1 v1
          | none => none
      | _ => some (c, g :: visited)

/-- `SimulationCtx::populate_node_info`: run the traversal from a fresh
visited set; fuel `store.length + 1` is proved sufficient below. -/
def populate_node_info (store : List Graph) (c : SimulationCtx) (g : Nat) :
    Option SimulationCtx :=
  (populate_node_info_impl store (store.length + 1) g c []).map Prod.fst

/-- A sequence of `populate_node_info` calls, used to describe the contexts
reachable by the indexing phase. -/
def populateSeq (store : List Graph) : List Nat → SimulationCtx → Option SimulationCtx
  | [], c => some c
  | r :: rs, c =>
      match populate_node_info store c r with
      | some c1 => populateSeq store rs c1
      | none => none

/-- `SimulationCtx::get_node_dist`: look the identity up in the address map
and index into the histogram table (a Rust out-of-bounds panic is `none`). -/
def SimulationCtx.get_node_dist (c : SimulationCtx) (g : Nat) : Option Hist :=
  (lookupKey c.address_map g).bind fun i => c.node_info[i]?

/-- A sequence of `access` events `(node_id, block_id)`, folded left in
execution order. -/
def accessSeq (c : SimulationCtx) (evs : List (Nat × Nat)) : SimulationCtx :=
  evs.foldl (fun c e => c.access e.1 e.2) c

/-- The grand total of occurrence counts over every histogram of a context. -/
def totalCount (c : SimulationCtx) : Nat := (c.node_info.map histTotal).sum

/-- Reachable-state invariant of the simulation phase: every recorded
last-seen time is strictly below the logical clock. -/
def timesLT (c : SimulationCtx) : Prop :=
  ∀ p ∈ c.access_time, p.2 < c.logic_time

/-- `Graph::format`, fuel-indexed.  The visited set is threaded through the
whole rendering (inserted before dispatch, never removed); an already-visited
node prints as an ellipsis.  Writer output is modelled as the returned
string; opaque `Expr` debug output is the expression identity's decimal. -/
def formatGraph (store : List Graph) :
    Nat → Nat → List Nat → Option (String × List Nat)
  | 0, _, _ => none
  | fuel + 1, g, visited =>
    if g ∈ visited then some ("...", visited)
    else
      match store[g]? with
      | none => some ("", g :: visited)
      | some Graph.end_ => some ("End", g :: visited)
      | some (Graph.start next) =>
          match next with
          | none => some ("Start()", g :: visited)
          | some x =>
              match formatGraph store fuel x (g :: visited) with
              | some (s, v) => some ("Start(" ++ s ++ ")", v)
              | none => none
      | some (Graph.access memref offset next) =>
          match next with
          | none =>
              some ("Access(" ++ toString memref ++ ", " ++ toString offset
                      ++ ", " ++ ")", g :: visited)
          | some x =>
              match formatGraph store fuel x (g :: visited) with
              | some (s, v) =>
                  some ("Access(" ++ toString memref ++ ", " ++ toString offset
                          ++ ", " ++ s ++ ")", v)
              | none => none
      | some (Graph.update ivar expr next) =>
          match next with
          | none =>
              some ("Update(" ++ toString ivar ++ ", " ++ toString expr
                      ++ ", " ++ ")", g :: visited)
          | some x =>
              match formatGraph store fuel x (g :: visited) with
              | some (s, v) =>
                  some ("Update(" ++ toString ivar ++ ", " ++ toString expr
                          ++ ", " ++ s ++ ")", v)
              | none => none
      | some (Graph.branch ivar bound t e) =>
          match t with
          | none =>
              match e with
              | none =>
                  some ("Branch(" ++ toString ivar ++ ", " ++ toString bound
                          ++ ", " ++ ")", g :: visited)
              | some y =>
                  match formatGraph store fuel y (g :: visited) with
                  | some (s, v) =>
                      some ("Branch(" ++ toString ivar ++ ", " ++ toString bound
                              ++ ", " ++ s ++ ")", v)
                  | none => none
          | some x =>
              match formatGraph store fuel x (g :: visited) with
              | some (s1, v1) =>
                  match e with
                  | none =>
                      some ("Branch(" ++ toString ivar ++ ", " ++ toString bound
                              ++ ", " ++ s1 ++ ", " ++ ")", v1)
                  | some y =>
                      match formatGraph store fuel y v1 with
                      | some (s2, v2) =>
                          some ("Branch(" ++ toString ivar ++ ", " ++ toString bound
                                  ++ ", " ++ s1 ++ ", " ++ s2 ++ ")", v2)
                      | none => none
              | none => none

/-- `Debug for Graph`: format from a fresh visited set (fuel
`store.length + 1`, proved sufficient below). -/
def formatTop (store : List Graph) (g : Nat) : Option String :=
  (formatGraph store (store.length + 1) g []).map Prod.fst

/-- Modelled from the spec for comparison with `formatGraph` (claim about
path-based elision): the visited argument is the *current rendering path*
only — it is extended for recursive calls but never threaded back, so a
sibling subtree does not see nodes rendered by an earlier sibling. -/
def formatSpecPath (store : List Graph) :
    Nat → Nat → List Nat → Option String
  | 0, _, _ => none
  | fuel + 1, g, path =>
    if g ∈ path then some "..."
    else
      match store[g]? with
      | none => some ""
      | some Graph.end_ => some "End"
      | some (Graph.start next) =>
          match next with
          | none => some "Start()"
          | some x =>
              match formatSpecPath store fuel x (g :: path) with
              | some s => some ("Start(" ++ s ++ ")")
              | none => none
      | some (Graph.access memref offset next) =>
          match next with
          | none =>
              some ("Access(" ++ toString memref ++ ", " ++ toString offset
                      ++ ", " ++ ")")
          | some x =>
              match formatSpecPath store fuel x (g :: path) with
              | some s =>
                  some ("Access(" ++ toString memref ++ ", " ++ toString offset
                          ++ ", " ++ s ++ ")")
              | none => none
      | some (Graph.update ivar expr next) =>
          match next with
          | none =>
              some ("Update(" ++ toString ivar ++ ", " ++ toString expr
                      ++ ", " ++ ")")
          | some x =>
              match formatSpecPath store fuel x (g :: path) with
              | some s =>
                  some ("Update(" ++ toString ivar ++ ", " ++ toString expr
                          ++ ", " ++ s ++ ")")
              | none => none
      | some (Graph.branch ivar bound t e) =>
          match t with
          | none =>
              match e with
              | none =>
                  some ("Branch(" ++ toString ivar ++ ", " ++ toString bound
                          ++ ", " ++ ")")
              | some y =>
                  match formatSpecPath store fuel y (g :: path) with
                  | some s =>
                      some ("Branch(" ++ toString ivar ++ ", " ++ toString bound
                              ++ ", " ++ s ++ ")")
                  | none => none
          | some x =>
              match formatSpecPath store fuel x (g :: path) with
              | some s1 =>
                  match e with
                  | none =>
                      some ("Branch(" ++ toString ivar ++ ", " ++ toString bound
                              ++ ", " ++ s1 ++ ", " ++ ")")
                  | some y =>
                      match formatSpecPath store fuel y (g :: path) with
                      | some s2 =>
                          some ("Branch(" ++ toString ivar ++ ", " ++ toString bound
                                  ++ ", " ++ s1 ++ ", " ++ s2 ++ ")")
                      | none => none
              | none => none

/-- `slap_graph_start_set_next`: patch the `next` link of a `Start` node; a
null target, an invalid identity, or a non-`Start` node is a no-op. -/
def slap_graph_start_set_next (store : List Graph)
    (target : Option Nat) (next : Option Nat) : List Graph :=
  match target with
  | none => store
  | some i =>
      match store[i]? with
      | some (Graph.start _) => store.set i (Graph.start next)
      | _ => store

/-- `slap_graph_access_set_next`. -/
def slap_graph_access_set_next (store : List Graph)
    (target : Option Nat) (next : Option Nat) : List Graph :=
  match target with
  | none => store
  | some i =>
      match store[i]? with
      | some (Graph.access m o _) => store.set i (Graph.access m o next)
      | _ => store

/-- `slap_graph_update_set_next`. -/
def slap_graph_update_set_next (store : List Graph)
    (target : Option Nat) (next : Option Nat) : List Graph :=
  match target with
  | none => store
  | some i =>
      match store[i]? with
      | some (Graph.update iv ex _) => store.set i (Graph.update iv ex next)
      | _ => store

/-- `slap_graph_branch_set_then`. -/
def slap_graph_branch_set_then (store : List Graph)
    (target : Option Nat) (thenLink : Option Nat) : List Graph :=
  match target with
  | none => store
  | some i =>
      match store[i]? with
      | some (Graph.branch iv b _ e) => store.set i (Graph.branch iv b thenLink e)
      | _ => store

/-- `slap_graph_branch_set_else`. -/
def slap_graph_branch_set_else (store : List Graph)
    (target : Option Nat) (elseLink : Option Nat) : List Graph :=
  match target with
  | none => store
  | some i =>
      match store[i]? with
      | some (Graph.branch iv b t _) => store.set i (Graph.branch iv b t elseLink)
      | _ => store

/-! ### Association-list and histogram lemmas -/

theorem lookupKey_setKey_self (m : List (Nat × Nat)) (k v : Nat) :
    lookupKey (setKey m k v) k = some v := by
  induction m with
  | nil => simp [setKey, lookupKey]
  | cons p rest ih =>
      obtain ⟨k', v'⟩ := p
      by_cases h : k = k' <;> simp [setKey, lookupKey, h, ih]

theorem lookupKey_setKey_ne (m : List (Nat × Nat)) (k v k' : Nat)
    (h : k' ≠ k) : lookupKey (setKey m k v) k' = lookupKey m k' := by
  induction m with
  | nil => simp [setKey, lookupKey, h]
  | cons p rest ih =>
      obtain ⟨ka, va⟩ := p
      by_cases hk : k = ka
      · subst hk; simp [setKey, lookupKey, h]
      · by_cases hk' : k' = ka <;> simp [setKey, lookupKey, hk, hk', ih]

theorem setKey_length_of_some (m : List (Nat × Nat)) (k v v0 : Nat)
    (h : lookupKey m k = some v0) : (setKey m k v).length = m.length := by
  induction m with
  | nil => simp [lookupKey] at h
  | cons p rest ih =>
      obtain ⟨ka, va⟩ := p
      by_cases hk : k = ka
      · simp [setKey, hk]
      · simp only [lookupKey, if_neg hk] at h
        simp [setKey, hk, ih h]

theorem setKey_length_of_none (m : List (Nat × Nat)) (k v : Nat)
    (h : lookupKey m k = none) : (setKey m k v).length = m.length + 1 := by
  induction m with
  | nil => simp [setKey]
  | cons p rest ih =>
      obtain ⟨ka, va⟩ := p
      by_cases hk : k = ka
      · simp [lookupKey, hk] at h
      · simp only [lookupKey, if_neg hk] at h
        simp [setKey, hk, ih h]

theorem mem_setKey (m : List (Nat × Nat)) (k v : Nat) (p : Nat × Nat)
    (h : p ∈ setKey m k v) : p ∈ m ∨ p = (k, v) := by
  induction m with
  | nil =>
      simp only [setKey, List.mem_singleton] at h
      right; exact h
  | cons q rest ih =>
      obtain ⟨ka, va⟩ := q
      by_cases hk : k = ka
      · subst hk
        simp only [setKey, if_pos rfl] at h
        rcases List.mem_cons.mp h with h1 | h1
        · right; exact h1
        · left; exact List.mem_cons_of_mem _ h1
      · simp only [setKey, if_neg hk] at h
        rcases List.mem_cons.mp h with h1 | h1
        · subst h1; left; exact List.mem_cons_self _ _
        · rcases ih h1 with h2 | h2
          · left; exact List.mem_cons_of_mem _ h2
          · right; exact h2

theorem lookupKey_mem (m : List (Nat × Nat)) (k v : Nat)
    (h : lookupKey m k = some v) : (k, v) ∈ m := by
  induction m with
  | nil => simp [lookupKey] at h
  | cons q rest ih =>
      obtain ⟨ka, va⟩ := q
      by_cases hk : k = ka
      · subst hk
        simp [lookupKey] at h
        simp [h]
      · simp only [lookupKey, if_neg hk] at h
        exact List.mem_cons_of_mem _ (ih h)

theorem mem_keys_iff_lookup (m : List (Nat × Nat)) (a : Nat) :
    a ∈ keysOf m ↔ ∃ v, lookupKey m a = some v := by
  induction m with
  | nil => simp [keysOf, lookupKey]
  | cons q rest ih =>
      obtain ⟨ka, va⟩ := q
      by_cases hk : a = ka
      · subst hk; simp [keysOf, lookupKey]
      · simp [keysOf, lookupKey, hk] at ih ⊢
        exact ih

theorem histCount_histIncr_self (h : Hist) (k : Nat) :
    histCount (histIncr h k) k = histCount h k + 1 := by
  induction h with
  | nil => simp [histIncr, histCount, lookupKey]
  | cons q rest ih =>
      obtain ⟨ka, va⟩ := q
      by_cases hk : k = ka
      · subst hk; simp [histIncr, histCount, lookupKey]
      · simp only [histIncr, if_neg hk]
        simp only [histCount, lookupKey, if_neg hk] at ih ⊢
        exact ih

theorem histCount_histIncr_ne (h : Hist) (k k' : Nat) (hne : k' ≠ k) :
    histCount (histIncr h k) k' = histCount h k' := by
  induction h with
  | nil => simp [histIncr, histCount, lookupKey, hne]
  | cons q rest ih =>
      obtain ⟨ka, va⟩ := q
      by_cases hk : k = ka
      · subst hk
        simp [histIncr, histCount, lookupKey, hne]
      · by_cases hk' : k' = ka
        · subst hk'; simp [histIncr, histCount, lookupKey, hk]
        · simp only [histIncr, if_neg hk]
          simp only [histCount, lookupKey, if_neg hk'] at ih ⊢
          exact ih

theorem histTotal_histIncr (h : Hist) (k : Nat) :
    histTotal (histIncr h k) = histTotal h + 1 := by
  induction h with
  | nil => simp [histIncr, histTotal]
  | cons q rest ih =>
      obtain ⟨ka, va⟩ := q
      by_cases hk : k = ka
      · subst hk; simp [histIncr, histTotal]; omega
      · simp only [histIncr, if_neg hk]
        simp only [histTotal, List.map_cons, List.sum_cons] at ih ⊢
        omega

theorem map_sum_set (f : Hist → Nat) :
    ∀ (l : List Hist) (i : Nat) (x : Hist), i < l.length →
      ((l.set i x).map f).sum + f (l.getD i []) = (l.map f).sum + f x := by
  intro l
  induction l with
  | nil => intro i x h; simp at h
  | cons a rest ih =>
      intro i x h
      cases i with
      | zero => simp [List.set]; omega
      | succ j =>
          simp only [List.set, List.map_cons, List.sum_cons, List.getD_cons_succ]
          have := ih j x (by simpa using h)
          omega

/-! ### The access operation -/

theorem access_eq_of_none (c : SimulationCtx) (nid bid : Nat)
    (h : lookupKey c.access_time bid = none) :
    c.access nid bid
      = { c with
            logic_time := c.logic_time + 1
            access_time := setKey c.access_time bid c.logic_time } := by
  simp [SimulationCtx.access, h]

theorem access_eq_of_hit (c : SimulationCtx) (nid bid prev : Nat)
    (h : lookupKey c.access_time bid = some prev)
    (hne : prev ≠ c.logic_time) :
    c.access nid bid
      = { c with
            logic_time := c.logic_time + 1
            node_info :=
              c.node_info.set nid
                (histIncr (c.node_info.getD nid []) (c.logic_time - prev))
            access_time := setKey c.access_time bid c.logic_time } := by
  simp [SimulationCtx.access, h, hne]

theorem lookup_lt_of_timesLT (c : SimulationCtx) (bid prev : Nat)
    (hinv : timesLT c) (h : lookupKey c.access_time bid = some prev) :
    prev < c.logic_time :=
  hinv (bid, prev) (lookupKey_mem _ _ _ h)

/-- Concrete state for the interval-accounting scenario of claim C1: node 0
is `X`, node 1 another access site, block 0 is `B`; the interleaved events
touch fresh blocks so that `B` is re-touched 3 and then 4 ticks later. -/
def intervalCtx : SimulationCtx :=
  { block_size := 0
    vaddrs := []
    logic_time := 0
    node_info := [[], []]
    address_map := []
    access_time := [] }

/-- Event trace for the interval-accounting scenario of claim C1. -/
def intervalTrace : List (Nat × Nat) :=
  [(0, 0), (1, 1), (1, 2), (0, 0), (1, 3), (1, 4), (1, 5), (0, 0)]

/-- Claim C1: on a reachable context (`timesLT`) whose last-seen table holds
`prev` for `block_id`, `access` computes a strictly positive interval
`t - prev`, increments node `node_id`'s histogram at exactly that key by one
(leaving its other keys and all other nodes' histograms unchanged), and sets
the block's last-seen time to `t`; concretely, re-touching block `B` at node
`X` three and then four ticks after its first touch leaves `X`'s histogram
at `{3 ↦ 1, 4 ↦ 1}`. -/
theorem access_reuse_hit :
    (∀ (c : SimulationCtx) (node_id block_id prev : Nat),
        timesLT c → node_id < c.node_info.length →
        lookupKey c.access_time block_id = some prev →
        0 < c.logic_time - prev ∧
        histCount ((c.access node_id block_id).node_info.getD node_id [])
            (c.logic_time - prev)
          = histCount (c.node_info.getD node_id []) (c.logic_time - prev) + 1 ∧
        (∀ k, k ≠ c.logic_time - prev →
          histCount ((c.access node_id block_id).node_info.getD node_id []) k
            = histCount (c.node_info.getD node_id []) k) ∧
        (∀ j, j ≠ node_id →
          (c.access node_id block_id).node_info.getD j []
            = c.node_info.getD j []) ∧
        lookupKey (c.access node_id block_id).access_time block_id
          = some c.logic_time) ∧
    (accessSeq intervalCtx intervalTrace).node_info.getD 0 [] = [(3, 1), (4, 1)] := by
  constructor
  · intro c node_id block_id prev hinv hn hprev
    have hlt : prev < c.logic_time := lookup_lt_of_timesLT c block_id prev hinv hprev
    have hne : prev ≠ c.logic_time := Nat.ne_of_lt hlt
    rw [access_eq_of_hit c node_id block_id prev hprev hne]
    have hset : ((c.node_info.set node_id
        (histIncr (c.node_info.getD node_id []) (c.logic_time - prev))).getD node_id [])
        = histIncr (c.node_info.getD node_id []) (c.logic_time - prev) := by
      simp [List.getD, List.getElem?_set_self hn]
    refine ⟨by omega, ?_, ?_, ?_, ?_⟩
    · simp only [hset]
      exact histCount_histIncr_self _ _
    · intro k hk
      simp only [hset]
      exact histCount_histIncr_ne _ _ _ hk
    · intro j hj
      simp [List.getD, List.getElem?_set_ne (fun h => hj h.symm)]
    · exact lookupKey_setKey_self _ _ _
  · rfl

/-- Witness for claim C1's theorem: an explicit reachable context hit. -/
theorem access_reuse_hit_check :
    0 < (intervalCtx.access 0 0).logic_time - 0 ∧
    histCount (((intervalCtx.access 0 0).access 0 0).node_info.getD 0 [])
        ((intervalCtx.access 0 0).logic_time - 0)
      = histCount ((intervalCtx.access 0 0).node_info.getD 0 [])
          ((intervalCtx.access 0 0).logic_time - 0) + 1 ∧
    (∀ k, k ≠ (intervalCtx.access 0 0).logic_time - 0 →
      histCount (((intervalCtx.access 0 0).access 0 0).node_info.getD 0 []) k
        = histCount ((intervalCtx.access 0 0).node_info.getD 0 []) k) ∧
    (∀ j, j ≠ 0 →
      ((intervalCtx.access 0 0).access 0 0).node_info.getD j []
        = (intervalCtx.access 0 0).node_info.getD j []) ∧
    lookupKey (((intervalCtx.access 0 0).access 0 0).access_time) 0
      = some (intervalCtx.access 0 0).logic_time :=
  access_reuse_hit.1 (intervalCtx.access 0 0) 0 0 0
    (by
      intro p hp
      have hp' : p = (0, 0) := by
        simpa [intervalCtx, SimulationCtx.access, lookupKey, setKey] using hp
      rw [hp']
      decide)
    (by decide) (by decide)

/-- Claim C3: a first touch (no last-seen entry for the block) records the
current clock as the block's last-seen time, changes no histogram and no
other field, and still advances the clock by one. -/
theorem access_first_touch (c : SimulationCtx) (node_id block_id : Nat)
    (h : lookupKey c.access_time block_id = none) :
    (c.access node_id block_id).node_info = c.node_info ∧
    lookupKey (c.access node_id block_id).access_time block_id
      = some c.logic_time ∧
    (c.access node_id block_id).logic_time = c.logic_time + 1 ∧
    (c.access node_id block_id).address_map = c.address_map := by
  rw [access_eq_of_none c node_id block_id h]
  exact ⟨rfl, lookupKey_setKey_self _ _ _, rfl, rfl⟩

/-- Witness for claim C3's theorem: a first touch on a fresh context. -/
theorem access_first_touch_check :
    ((SimulationCtx.new 4 [0]).access 0 7).node_info
      = (SimulationCtx.new 4 [0]).node_info ∧
    lookupKey ((SimulationCtx.new 4 [0]).access 0 7).access_time 7
      = some (SimulationCtx.new 4 [0]).logic_time ∧
    ((SimulationCtx.new 4 [0]).access 0 7).logic_time
      = (SimulationCtx.new 4 [0]).logic_time + 1 ∧
    ((SimulationCtx.new 4 [0]).access 0 7).address_map
      = (SimulationCtx.new 4 [0]).address_map :=
  access_first_touch (SimulationCtx.new 4 [0]) 0 7 rfl

/-! ### Conservation of access events -/

theorem access_step (c : SimulationCtx) (nid bid : Nat)
    (hlt : timesLT c) (hn : nid < c.node_info.length) :
    (c.access nid bid).logic_time = c.logic_time + 1 ∧
    totalCount (c.access nid bid) + (c.access nid bid).access_time.length
      = totalCount c + c.access_time.length + 1 ∧
    timesLT (c.access nid bid) ∧
    (c.access nid bid).node_info.length = c.node_info.length := by
  cases hl : lookupKey c.access_time bid with
  | none =>
      rw [access_eq_of_none c nid bid hl]
      refine ⟨rfl, ?_, ?_, rfl⟩
      · simp only [totalCount]
        rw [setKey_length_of_none c.access_time bid c.logic_time hl]
        omega
      · intro p hp
        rcases mem_setKey _ _ _ _ hp with h | h
        · exact Nat.lt_succ_of_lt (hlt p h)
        · subst h; exact Nat.lt_succ_self _
  | some prev =>
      have hne : prev ≠ c.logic_time :=
        Nat.ne_of_lt (lookup_lt_of_timesLT c bid prev hlt hl)
      rw [access_eq_of_hit c nid bid prev hl hne]
      refine ⟨rfl, ?_, ?_, by simp⟩
      · simp only [totalCount]
        rw [setKey_length_of_some c.access_time bid c.logic_time prev hl]
        have hsum := map_sum_set histTotal c.node_info nid
          (histIncr (c.node_info.getD nid []) (c.logic_time - prev)) hn
        have hinc := histTotal_histIncr (c.node_info.getD nid [])
          (c.logic_time - prev)
        simp only at hsum
        omega
      · intro p hp
        rcases mem_setKey _ _ _ _ hp with h | h
        · exact Nat.lt_succ_of_lt (hlt p h)
        · subst h; exact Nat.lt_succ_self _

theorem accessSeq_inv :
    ∀ (evs : List (Nat × Nat)) (c : SimulationCtx),
      timesLT c → (∀ e ∈ evs, e.1 < c.node_info.length) →
      (accessSeq c evs).logic_time = c.logic_time + evs.length ∧
      totalCount (accessSeq c evs) + (accessSeq c evs).access_time.length
        = totalCount c + c.access_time.length + evs.length ∧
      timesLT (accessSeq c evs) ∧
      (accessSeq c evs).node_info.length = c.node_info.length := by
  intro evs
  induction evs with
  | nil => intro c hlt _; exact ⟨rfl, rfl, hlt, rfl⟩
  | cons e rest ih =>
      intro c hlt hin
      obtain ⟨h1, h2, h3, h4⟩ :=
        access_step c e.1 e.2 hlt (hin e (List.mem_cons_self _ _))
      have hin' : ∀ e' ∈ rest, e'.1 < (c.access e.1 e.2).node_info.length := by
        intro e' he'
        rw [h4]
        exact hin e' (List.mem_cons_of_mem _ he')
      obtain ⟨g1, g2, g3, g4⟩ := ih (c.access e.1 e.2) h3 hin'
      have hseq : accessSeq c (e :: rest) = accessSeq (c.access e.1 e.2) rest := rfl
      have hlen : (e :: rest).length = rest.length + 1 := rfl
      rw [hseq, hlen]
      refine ⟨by omega, by omega, g3, by rw [g4, h4]⟩

/-! ### The indexing traversal -/

theorem addIndex_logic_time (c : SimulationCtx) (g : Nat) :
    (addIndex c g).logic_time = c.logic_time := by
  unfold addIndex; split <;> rfl

theorem addIndex_access_time (c : SimulationCtx) (g : Nat) :
    (addIndex c g).access_time = c.access_time := by
  unfold addIndex; split <;> rfl

theorem addIndex_empty_hists (c : SimulationCtx) (g : Nat)
    (h : ∀ x ∈ c.node_info, x = []) :
    ∀ x ∈ (addIndex c g).node_info, x = [] := by
  unfold addIndex; split
  · exact h
  · intro x hx
    rcases List.mem_append.mp hx with hx | hx
    · exact h x hx
    · simpa using hx

theorem addIndex_keys_mono (c : SimulationCtx) (g a : Nat)
    (h : a ∈ keysOf c.address_map) : a ∈ keysOf (addIndex c g).address_map := by
  unfold addIndex; split
  · exact h
  · simp only [keysOf, List.map_append] at *
    exact List.mem_append_left _ h

theorem mem_keys_addIndex_self (c : SimulationCtx) (g : Nat) :
    g ∈ keysOf (addIndex c g).address_map := by
  unfold addIndex
  split
  · rename_i v hv
    exact (mem_keys_iff_lookup _ _).mpr ⟨v, hv⟩
  · simp [keysOf]

theorem addIndex_eq_self_of_mem (c : SimulationCtx) (g : Nat)
    (h : g ∈ keysOf c.address_map) : addIndex c g = c := by
  obtain ⟨v, hv⟩ := (mem_keys_iff_lookup _ _).mp h
  unfold addIndex
  rw [hv]

theorem populate_impl_visited_mono (store : List Graph) :
    ∀ fuel g c visited c1 v1,
      populate_node_info_impl store fuel g c visited = some (c1, v1) →
      ∀ a, a ∈ visited → a ∈ v1 := by
  intro fuel
  induction fuel with
  | zero =>
      intro g c visited c1 v1 h
      simp [populate_node_info_impl] at h
  | succ fuel ih =>
      intro g c visited c1 v1 h a ha
      rw [populate_node_info_impl] at h
      split at h
      · cases h; exact ha
      · have ha' : a ∈ g :: visited := List.mem_cons_of_mem _ ha
        split at h
        · exact ih _ _ _ _ _ h a ha'
        · rename_i memref offset next
          split at h
          · exact ih _ _ _ _ _ h a ha'
          · cases h; exact ha'
        · exact ih _ _ _ _ _ h a ha'
        · split at h
          · rename_i ca va heq
            exact ih _ _ _ _ _ h a (ih _ _ _ _ _ heq a ha')
          · exact absurd h (by simp)
        · cases h; exact ha'

theorem populate_impl_keys_mono (store : List Graph) :
    ∀ fuel g c visited c1 v1,
      populate_node_info_impl store fuel g c visited = some (c1, v1) →
      ∀ a, a ∈ keysOf c.address_map → a ∈ keysOf c1.address_map := by
  intro fuel
  induction fuel with
  | zero =>
      intro g c visited c1 v1 h
      simp [populate_node_info_impl] at h
  | succ fuel ih =>
      intro g c visited c1 v1 h a ha
      rw [populate_node_info_impl] at h
      split at h
      · cases h; exact ha
      · split at h
        · exact ih _ _ _ _ _ h a ha
        · split at h
          · exact ih _ _ _ _ _ h a (addIndex_keys_mono _ _ _ ha)
          · cases h; exact addIndex_keys_mono _ _ _ ha
        · exact ih _ _ _ _ _ h a ha
        · split at h
          · rename_i ca va heq
            exact ih _ _ _ _ _ h a (ih _ _ _ _ _ heq a ha)
          · exact absurd h (by simp)
        · cases h; exact ha

theorem populate_impl_fields (store : List Graph) :
    ∀ fuel g c visited c1 v1,
      populate_node_info_impl store fuel g c visited = some (c1, v1) →
      c1.logic_time = c.logic_time ∧ c1.access_time = c.access_time ∧
      ((∀ x ∈ c.node_info, x = []) → ∀ x ∈ c1.node_info, x = []) := by
  intro fuel
  induction fuel with
  | zero =>
      intro g c visited c1 v1 h
      simp [populate_node_info_impl] at h
  | succ fuel ih =>
      intro g c visited c1 v1 h
      rw [populate_node_info_impl] at h
      split at h
      · cases h; exact ⟨rfl, rfl, fun he => he⟩
      · split at h
        · exact ih _ _ _ _ _ h
        · split at h
          · obtain ⟨h1, h2, h3⟩ := ih _ _ _ _ _ h
            exact ⟨by rw [h1, addIndex_logic_time],
                   by rw [h2, addIndex_access_time],
                   fun he => h3 (addIndex_empty_hists _ _ he)⟩
          · cases h
            exact ⟨addIndex_logic_time _ _, addIndex_access_time _ _,
                   addIndex_empty_hists _ _⟩
        · exact ih _ _ _ _ _ h
        · split at h
          · rename_i ca va heq
            obtain ⟨h1, h2, h3⟩ := ih _ _ _ _ _ heq
            obtain ⟨g1, g2, g3⟩ := ih _ _ _ _ _ h
            exact ⟨by rw [g1, h1], by rw [g2, h2], fun he => g3 (h3 he)⟩
          · exact absurd h (by simp)
        · cases h; exact ⟨rfl, rfl, fun he => he⟩

/-- Index invariant of the indexing pass: the address map's keys are
pairwise distinct and its values, in insertion order, are exactly
`0, …, L-1` where `L` is the number of allocated histograms. -/
def indexInv (c : SimulationCtx) : Prop :=
  (keysOf c.address_map).Nodup ∧
  c.address_map.map Prod.snd = List.range c.node_info.length

theorem addIndex_indexInv (c : SimulationCtx) (g : Nat)
    (h : indexInv c) : indexInv (addIndex c g) := by
  obtain ⟨h1, h2⟩ := h
  unfold addIndex
  split
  · exact ⟨h1, h2⟩
  · rename_i hl
    have hg : g ∉ keysOf c.address_map := by
      intro hmem
      obtain ⟨v, hv⟩ := (mem_keys_iff_lookup _ _).mp hmem
      rw [hl] at hv
      cases hv
    constructor
    · simp only [keysOf, List.map_append, List.map_cons, List.map_nil]
      rw [List.nodup_append]
      refine ⟨h1, List.nodup_singleton _, ?_⟩
      intro a ha hb
      simp only [List.mem_singleton] at hb
      subst hb
      exact hg ha
    · simp only [List.map_append, List.map_cons, List.map_nil,
        List.length_append, List.length_cons, List.length_nil]
      rw [h2, List.range_succ]

theorem populate_impl_indexInv (store : List Graph) :
    ∀ fuel g c visited c1 v1,
      populate_node_info_impl store fuel g c visited = some (c1, v1) →
      indexInv c → indexInv c1 := by
  intro fuel
  induction fuel with
  | zero =>
      intro g c visited c1 v1 h
      simp [populate_node_info_impl] at h
  | succ fuel ih =>
      intro g c visited c1 v1 h hc
      rw [populate_node_info_impl] at h
      split at h
      · cases h; exact hc
      · split at h
        · exact ih _ _ _ _ _ h hc
        · split at h
          · exact ih _ _ _ _ _ h (addIndex_indexInv _ _ hc)
          · cases h; exact addIndex_indexInv _ _ hc
        · exact ih _ _ _ _ _ h hc
        · split at h
          · rename_i ca va heq
            exact ih _ _ _ _ _ h (ih _ _ _ _ _ heq hc)
          · exact absurd h (by simp)
        · cases h; exact hc

/-! ### Per-shape equations of the indexing traversal -/

theorem populate_eq_visited (store : List Graph) (fuel g : Nat)
    (c : SimulationCtx) (visited : List Nat) (hg : g ∈ visited) :
    populate_node_info_impl store (fuel + 1) g c visited = some (c, visited) := by
  rw [populate_node_info_impl, if_pos hg]

theorem populate_eq_invalid (store : List Graph) (fuel g : Nat)
    (c : SimulationCtx) (visited : List Nat) (hg : g ∉ visited)
    (hnode : store[g]? = none) :
    populate_node_info_impl store (fuel + 1) g c visited
      = some (c, g :: visited) := by
  rw [populate_node_info_impl, if_neg hg, hnode]

theorem populate_eq_end (store : List Graph) (fuel g : Nat)
    (c : SimulationCtx) (visited : List Nat) (hg : g ∉ visited)
    (hnode : store[g]? = some Graph.end_) :
    populate_node_info_impl store (fuel + 1) g c visited
      = some (c, g :: visited) := by
  rw [populate_node_info_impl, if_neg hg, hnode]

theorem populate_eq_start_none (store : List Graph) (fuel g : Nat)
    (c : SimulationCtx) (visited : List Nat) (hg : g ∉ visited)
    (hnode : store[g]? = some (Graph.start none)) :
    populate_node_info_impl store (fuel + 1) g c visited
      = some (c, g :: visited) := by
  rw [populate_node_info_impl, if_neg hg, hnode]

theorem populate_eq_start_some (store : List Graph) (fuel g x : Nat)
    (c : SimulationCtx) (visited : List Nat) (hg : g ∉ visited)
    (hnode : store[g]? = some (Graph.start (some x))) :
    populate_node_info_impl store (fuel + 1) g c visited
      = populate_node_info_impl store fuel x c (g :: visited) := by
  rw [populate_node_info_impl, if_neg hg, hnode]

theorem populate_eq_access_none (store : List Graph) (fuel g m o : Nat)
    (c : SimulationCtx) (visited : List Nat) (hg : g ∉ visited)
    (hnode : store[g]? = some (Graph.access m o none)) :
    populate_node_info_impl store (fuel + 1) g c visited
      = some (addIndex c g, g :: visited) := by
  rw [populate_node_info_impl, if_neg hg, hnode]

theorem populate_eq_access_some (store : List Graph) (fuel g m o x : Nat)
    (c : SimulationCtx) (visited : List Nat) (hg : g ∉ visited)
    (hnode : store[g]? = some (Graph.access m o (some x))) :
    populate_node_info_impl store (fuel + 1) g c visited
      = populate_node_info_impl store fuel x (addIndex c g) (g :: visited) := by
  rw [populate_node_info_impl, if_neg hg, hnode]

theorem populate_eq_update_none (store : List Graph) (fuel g iv ex : Nat)
    (c : SimulationCtx) (visited : List Nat) (hg : g ∉ visited)
    (hnode : store[g]? = some (Graph.update iv ex none)) :
    populate_node_info_impl store (fuel + 1) g c visited
      = some (c, g :: visited) := by
  rw [populate_node_info_impl, if_neg hg, hnode]

theorem populate_eq_update_some (store : List Graph) (fuel g iv ex x : Nat)
    (c : SimulationCtx) (visited : List Nat) (hg : g ∉ visited)
    (hnode : store[g]? = some (Graph.update iv ex (some x))) :
    populate_node_info_impl store (fuel + 1) g c visited
      = populate_node_info_impl store fuel x c (g :: visited) := by
  rw [populate_node_info_impl, if_neg hg, hnode]

theorem populate_eq_branch_then_only (store : List Graph) (fuel g iv b x : Nat)
    (c : SimulationCtx) (visited : List Nat) (hg : g ∉ visited)
    (hnode : store[g]? = some (Graph.branch iv b (some x) none)) :
    populate_node_info_impl store (fuel + 1) g c visited
      = some (c, g :: visited) := by
  rw [populate_node_info_impl, if_neg hg, hnode]

theorem populate_eq_branch_else_only (store : List Graph) (fuel g iv b y : Nat)
    (c : SimulationCtx) (visited : List Nat) (hg : g ∉ visited)
    (hnode : store[g]? = some (Graph.branch iv b none (some y))) :
    populate_node_info_impl store (fuel + 1) g c visited
      = some (c, g :: visited) := by
  rw [populate_node_info_impl, if_neg hg, hnode]

theorem populate_eq_branch_none (store : List Graph) (fuel g iv b : Nat)
    (c : SimulationCtx) (visited : List Nat) (hg : g ∉ visited)
    (hnode : store[g]? = some (Graph.branch iv b none none)) :
    populate_node_info_impl store (fuel + 1) g c visited
      = some (c, g :: visited) := by
  rw [populate_node_info_impl, if_neg hg, hnode]

theorem populate_eq_branch_both (store : List Graph) (fuel g iv b x y : Nat)
    (c : SimulationCtx) (visited : List Nat) (hg : g ∉ visited)
    (hnode : store[g]? = some (Graph.branch iv b (some x) (some y))) :
    populate_node_info_impl store (fuel + 1) g c visited
      = match populate_node_info_impl store fuel x c (g :: visited) with
        | some (c1, v1) => populate_node_info_impl store fuel y c1 v1
        | none => none := by
  rw [populate_node_info_impl, if_neg hg, hnode]

/-! ### Termination: sufficient fuel for the traversals -/

/-- The number of in-range identities not yet visited; the decreasing
measure shared by both cycle-guarded traversals. -/
def unseen (n : Nat) (visited : List Nat) : Nat :=
  ((List.range n).filter (fun i => decide (i ∉ visited))).length

theorem unseen_le (n : Nat) (visited : List Nat) : unseen n visited ≤ n := by
  unfold unseen
  calc ((List.range n).filter _).length ≤ (List.range n).length :=
        List.length_filter_le _ _
    _ = n := List.length_range n

theorem unseen_anti (n : Nat) (v v' : List Nat) (h : ∀ a ∈ v, a ∈ v') :
    unseen n v' ≤ unseen n v := by
  unfold unseen
  apply List.Sublist.length_le
  apply List.monotone_filter_right
  intro a ha
  simp only [decide_eq_true_eq] at ha ⊢
  exact fun hav => ha (h a hav)

theorem unseen_cons_lt (n g : Nat) (v : List Nat)
    (hg : g < n) (hnv : g ∉ v) : unseen n (g :: v) < unseen n v := by
  have hsub : List.Sublist ((List.range n).filter (fun i => decide (i ∉ g :: v)))
      ((List.range n).filter (fun i => decide (i ∉ v))) := by
    apply List.monotone_filter_right
    intro a ha
    simp only [List.mem_cons, decide_eq_true_eq] at ha ⊢
    exact fun hav => ha (Or.inr hav)
  rcases Nat.eq_or_lt_of_le hsub.length_le with heq | hlt
  · exfalso
    have hmem : g ∈ (List.range n).filter (fun i => decide (i ∉ v)) := by
      simp only [List.mem_filter, List.mem_range, decide_eq_true_eq]
      exact ⟨hg, hnv⟩
    rw [← hsub.eq_of_length heq] at hmem
    simp only [List.mem_filter, List.mem_cons, decide_eq_true_eq] at hmem
    exact hmem.2 (Or.inl trivial)
  · exact hlt

theorem getElem_some_lt {store : List Graph} {g : Nat} {node : Graph}
    (h : store[g]? = some node) : g < store.length := by
  by_contra hcon
  rw [List.getElem?_eq_none (Nat.le_of_not_lt hcon)] at h
  cases h

theorem populate_impl_total (store : List Graph) :
    ∀ fuel g c visited,
      unseen store.length visited < fuel →
      ∃ c1 v1, populate_node_info_impl store fuel g c visited = some (c1, v1) := by
  intro fuel
  induction fuel with
  | zero => intro g c visited hfuel; omega
  | succ fuel ih =>
      intro g c visited hfuel
      by_cases hg : g ∈ visited
      · exact ⟨c, visited, populate_eq_visited store fuel g c visited hg⟩
      · have hle : unseen store.length visited ≤ fuel := Nat.lt_succ_iff.mp hfuel
        cases hnode : store[g]? with
        | none =>
            exact ⟨c, g :: visited, populate_eq_invalid store fuel g c visited hg hnode⟩
        | some node =>
            have hlt : g < store.length := getElem_some_lt hnode
            have hchild : unseen store.length (g :: visited) < fuel :=
              Nat.lt_of_lt_of_le (unseen_cons_lt _ _ _ hlt hg) hle
            cases node with
            | start nxt =>
                cases nxt with
                | none =>
                    exact ⟨c, g :: visited,
                      populate_eq_start_none store fuel g c visited hg hnode⟩
                | some x =>
                    obtain ⟨c1, v1, h1⟩ := ih x c (g :: visited) hchild
                    exact ⟨c1, v1, by
                      rw [populate_eq_start_some store fuel g x c visited hg hnode]
                      exact h1⟩
            | end_ =>
                exact ⟨c, g :: visited,
                  populate_eq_end store fuel g c visited hg hnode⟩
            | access m o nxt =>
                cases nxt with
                | none =>
                    exact ⟨addIndex c g, g :: visited,
                      populate_eq_access_none store fuel g m o c visited hg hnode⟩
                | some x =>
                    obtain ⟨c1, v1, h1⟩ := ih x (addIndex c g) (g :: visited) hchild
                    exact ⟨c1, v1, by
                      rw [populate_eq_access_some store fuel g m o x c visited hg hnode]
                      exact h1⟩
            | update iv ex nxt =>
                cases nxt with
                | none =>
                    exact ⟨c, g :: visited,
                      populate_eq_update_none store fuel g iv ex c visited hg hnode⟩
                | some x =>
                    obtain ⟨c1, v1, h1⟩ := ih x c (g :: visited) hchild
                    exact ⟨c1, v1, by
                      rw [populate_eq_update_some store fuel g iv ex x c visited hg hnode]
                      exact h1⟩
            | branch iv b t e =>
                cases t with
                | none =>
                    cases e with
                    | none =>
                        exact ⟨c, g :: visited,
                          populate_eq_branch_none store fuel g iv b c visited hg hnode⟩
                    | some y =>
                        exact ⟨c, g :: visited,
                          populate_eq_branch_else_only store fuel g iv b y c visited hg hnode⟩
                | some x =>
                    cases e with
                    | none =>
                        exact ⟨c, g :: visited,
                          populate_eq_branch_then_only store fuel g iv b x c visited hg hnode⟩
                    | some y =>
                        obtain ⟨c1, v1, h1⟩ := ih x c (g :: visited) hchild
                        have hmono := populate_impl_visited_mono store fuel x c
                          (g :: visited) c1 v1 h1
                        have hchild2 : unseen store.length v1 < fuel :=
                          Nat.lt_of_le_of_lt (unseen_anti _ _ _ hmono) hchild
                        obtain ⟨c2, v2, h2⟩ := ih y c1 v1 hchild2
                        exact ⟨c2, v2, by
                          rw [populate_eq_branch_both store fuel g iv b x y c visited hg hnode,
                            h1]
                          exact h2⟩

theorem populate_node_info_total (store : List Graph) (c : SimulationCtx)
    (g : Nat) : ∃ c1, populate_node_info store c g = some c1 := by
  obtain ⟨c1, v1, h⟩ := populate_impl_total store (store.length + 1) g c []
    (Nat.lt_succ_of_le (unseen_le _ _))
  exact ⟨c1, by rw [populate_node_info, h]; rfl⟩

/-! ### Stability of the indexing traversal -/

theorem populate_impl_stable (store : List Graph) :
    ∀ fuel g c visited c1 v1,
      populate_node_info_impl store fuel g c visited = some (c1, v1) →
      ∀ c2, (∀ a, a ∈ keysOf c1.address_map → a ∈ keysOf c2.address_map) →
      populate_node_info_impl store fuel g c2 visited = some (c2, v1) := by
  intro fuel
  induction fuel with
  | zero =>
      intro g c visited c1 v1 h
      simp [populate_node_info_impl] at h
  | succ fuel ih =>
      intro g c visited c1 v1 h c2 hkeys
      by_cases hg : g ∈ visited
      · rw [populate_eq_visited store fuel g c visited hg] at h
        cases h
        exact populate_eq_visited store fuel g c2 visited hg
      · cases hnode : store[g]? with
        | none =>
            rw [populate_eq_invalid store fuel g c visited hg hnode] at h
            cases h
            exact populate_eq_invalid store fuel g c2 visited hg hnode
        | some node =>
            cases node with
            | start nxt =>
                cases nxt with
                | none =>
                    rw [populate_eq_start_none store fuel g c visited hg hnode] at h
                    cases h
                    exact populate_eq_start_none store fuel g c2 visited hg hnode
                | some x =>
                    rw [populate_eq_start_some store fuel g x c visited hg hnode] at h
                    rw [populate_eq_start_some store fuel g x c2 visited hg hnode]
                    exact ih x c (g :: visited) c1 v1 h c2 hkeys
            | end_ =>
                rw [populate_eq_end store fuel g c visited hg hnode] at h
                cases h
                exact populate_eq_end store fuel g c2 visited hg hnode
            | access m o nxt =>
                cases nxt with
                | none =>
                    rw [populate_eq_access_none store fuel g m o c visited hg hnode] at h
                    cases h
                    have hgc2 : g ∈ keysOf c2.address_map :=
                      hkeys g (mem_keys_addIndex_self c g)
                    rw [populate_eq_access_none store fuel g m o c2 visited hg hnode,
                      addIndex_eq_self_of_mem c2 g hgc2]
                | some x =>
                    rw [populate_eq_access_some store fuel g m o x c visited hg hnode] at h
                    have hgc1 : g ∈ keysOf c1.address_map :=
                      populate_impl_keys_mono store fuel x (addIndex c g)
                        (g :: visited) c1 v1 h g (mem_keys_addIndex_self c g)
                    have hgc2 : g ∈ keysOf c2.address_map := hkeys g hgc1
                    rw [populate_eq_access_some store fuel g m o x c2 visited hg hnode,
                      addIndex_eq_self_of_mem c2 g hgc2]
                    exact ih x (addIndex c g) (g :: visited) c1 v1 h c2 hkeys
            | update iv ex nxt =>
                cases nxt with
                | none =>
                    rw [populate_eq_update_none store fuel g iv ex c visited hg hnode] at h
                    cases h
                    exact populate_eq_update_none store fuel g iv ex c2 visited hg hnode
                | some x =>
                    rw [populate_eq_update_some store fuel g iv ex x c visited hg hnode] at h
                    rw [populate_eq_update_some store fuel g iv ex x c2 visited hg hnode]
                    exact ih x c (g :: visited) c1 v1 h c2 hkeys
            | branch iv b t e =>
                cases t with
                | none =>
                    cases e with
                    | none =>
                        rw [populate_eq_branch_none store fuel g iv b c visited hg hnode] at h
                        cases h
                        exact populate_eq_branch_none store fuel g iv b c2 visited hg hnode
                    | some y =>
                        rw [populate_eq_branch_else_only store fuel g iv b y c visited hg
                          hnode] at h
                        cases h
                        exact populate_eq_branch_else_only store fuel g iv b y c2 visited
                          hg hnode
                | some x =>
                    cases e with
                    | none =>
                        rw [populate_eq_branch_then_only store fuel g iv b x c visited hg
                          hnode] at h
                        cases h
                        exact populate_eq_branch_then_only store fuel g iv b x c2 visited
                          hg hnode
                    | some y =>
                        rw [populate_eq_branch_both store fuel g iv b x y c visited hg
                          hnode] at h
                        cases heq : populate_node_info_impl store fuel x c (g :: visited) with
                        | none => rw [heq] at h; cases h
                        | some p =>
                            obtain ⟨ca, va⟩ := p
                            rw [heq] at h
                            have hca : ∀ a, a ∈ keysOf ca.address_map →
                                a ∈ keysOf c2.address_map := fun a ha =>
                              hkeys a (populate_impl_keys_mono store fuel y ca va c1 v1 h a ha)
                            have h1 := ih x c (g :: visited) ca va heq c2 hca
                            have h2 := ih y ca va c1 v1 h c2 hkeys
                            rw [populate_eq_branch_both store fuel g iv b x y c2 visited hg
                              hnode, h1]
                            exact h2

/-- The one-sided-branch demonstration graph of claim C2: a `Branch` whose
`then` points at an `Access` node and whose `else` is absent. -/
def osStore : List Graph :=
  [Graph.branch 0 0 (some 1) none, Graph.access 0 0 none]

/-- Claim C2: the indexing pass recurses out of a `Branch` exactly when both
children are present; with exactly one child absent nothing but the branch
node itself is marked visited and the context is unchanged, so a subtree
reachable only through a one-sided `Branch` is never indexed (concretely,
indexing `osStore` assigns no index at all). -/
theorem populate_branch_one_sided (store : List Graph) (fuel g iv b : Nat)
    (c : SimulationCtx) (visited : List Nat) (hg : g ∉ visited) :
    (∀ x, store[g]? = some (Graph.branch iv b (some x) none) →
        populate_node_info_impl store (fuel + 1) g c visited
          = some (c, g :: visited)) ∧
    (∀ y, store[g]? = some (Graph.branch iv b none (some y)) →
        populate_node_info_impl store (fuel + 1) g c visited
          = some (c, g :: visited)) ∧
    (∀ x y, store[g]? = some (Graph.branch iv b (some x) (some y)) →
        populate_node_info_impl store (fuel + 1) g c visited
          = match populate_node_info_impl store fuel x c (g :: visited) with
            | some (c1, v1) => populate_node_info_impl store fuel y c1 v1
            | none => none) ∧
    populate_node_info osStore (SimulationCtx.new 0 []) 0
      = some (SimulationCtx.new 0 []) := by
  refine ⟨?_, ?_, ?_, rfl⟩
  · intro x hnode
    exact populate_eq_branch_then_only store fuel g iv b x c visited hg hnode
  · intro y hnode
    exact populate_eq_branch_else_only store fuel g iv b y c visited hg hnode
  · intro x y hnode
    exact populate_eq_branch_both store fuel g iv b x y c visited hg hnode

/-- Witness for claim C2's theorem at a concrete one-sided branch. -/
theorem populate_branch_one_sided_check :
    populate_node_info_impl osStore 3 0 (SimulationCtx.new 0 []) []
      = some (SimulationCtx.new 0 [], [0]) :=
  (populate_branch_one_sided osStore 2 0 0 0 (SimulationCtx.new 0 []) []
    (by simp)).1 1 rfl

/-- Claim C4: the indexing pass is idempotent — rerunning
`populate_node_info` from the context it produced returns that context
unchanged: no index is reassigned and no histogram is reset or duplicated. -/
theorem populate_node_info_idempotent (store : List Graph)
    (c c1 : SimulationCtx) (g : Nat)
    (h : populate_node_info store c g = some c1) :
    populate_node_info store c1 g = some c1 := by
  unfold populate_node_info at h ⊢
  cases himpl : populate_node_info_impl store (store.length + 1) g c [] with
  | none => rw [himpl] at h; cases h
  | some p =>
      obtain ⟨ca, va⟩ := p
      rw [himpl] at h
      simp at h
      subst h
      rw [populate_impl_stable store (store.length + 1) g c [] ca va himpl ca
        (fun a ha => ha)]
      rfl

/-- The cyclic demonstration graph: `Start → Access → Update → Branch` with
`then` looping back to the `Access` node and `else` to `End`. -/
def cycleStore : List Graph :=
  [Graph.start (some 1), Graph.access 0 0 (some 2), Graph.update 0 0 (some 3),
   Graph.branch 0 0 (some 1) (some 4), Graph.end_]

/-- The context produced by indexing `cycleStore` from a fresh context. -/
def cycleCtx : SimulationCtx :=
  { block_size := 0
    vaddrs := []
    logic_time := 0
    node_info := [[]]
    address_map := [(1, 0)]
    access_time := [] }

/-- Witness for claim C4's theorem: re-indexing the already-indexed cyclic
graph returns the same context. -/
theorem populate_node_info_idempotent_check :
    populate_node_info cycleStore cycleCtx 0 = some cycleCtx :=
  populate_node_info_idempotent cycleStore (SimulationCtx.new 0 []) cycleCtx 0 rfl

/-! ### Per-shape equations of the formatter -/

theorem format_eq_visited (store : List Graph) (fuel g : Nat)
    (visited : List Nat) (hg : g ∈ visited) :
    formatGraph store (fuel + 1) g visited = some ("...", visited) := by
  rw [formatGraph, if_pos hg]

theorem format_eq_invalid (store : List Graph) (fuel g : Nat)
    (visited : List Nat) (hg : g ∉ visited) (hnode : store[g]? = none) :
    formatGraph store (fuel + 1) g visited = some ("", g :: visited) := by
  rw [formatGraph, if_neg hg, hnode]

theorem format_eq_end (store : List Graph) (fuel g : Nat)
    (visited : List Nat) (hg : g ∉ visited)
    (hnode : store[g]? = some Graph.end_) :
    formatGraph store (fuel + 1) g visited = some ("End", g :: visited) := by
  rw [formatGraph, if_neg hg, hnode]

theorem format_eq_start_none (store : List Graph) (fuel g : Nat)
    (visited : List Nat) (hg : g ∉ visited)
    (hnode : store[g]? = some (Graph.start none)) :
    formatGraph store (fuel + 1) g visited = some ("Start()", g :: visited) := by
  rw [formatGraph, if_neg hg, hnode]

theorem format_eq_start_some (store : List Graph) (fuel g x : Nat)
    (visited : List Nat) (hg : g ∉ visited)
    (hnode : store[g]? = some (Graph.start (some x))) :
    formatGraph store (fuel + 1) g visited
      = match formatGraph store fuel x (g :: visited) with
        | some (s, v) => some ("Start(" ++ s ++ ")", v)
        | none => none := by
  rw [formatGraph, if_neg hg, hnode]

theorem format_eq_access_none (store : List Graph) (fuel g m o : Nat)
    (visited : List Nat) (hg : g ∉ visited)
    (hnode : store[g]? = some (Graph.access m o none)) :
    formatGraph store (fuel + 1) g visited
      = some ("Access(" ++ toString m ++ ", " ++ toString o ++ ", " ++ ")",
          g :: visited) := by
  rw [formatGraph, if_neg hg, hnode]

theorem format_eq_access_some (store : List Graph) (fuel g m o x : Nat)
    (visited : List Nat) (hg : g ∉ visited)
    (hnode : store[g]? = some (Graph.access m o (some x))) :
    formatGraph store (fuel + 1) g visited
      = match formatGraph store fuel x (g :: visited) with
        | some (s, v) =>
            some ("Access(" ++ toString m ++ ", " ++ toString o ++ ", "
                    ++ s ++ ")", v)
        | none => none := by
  rw [formatGraph, if_neg hg, hnode]

theorem format_eq_update_none (store : List Graph) (fuel g iv ex : Nat)
    (visited : List Nat) (hg : g ∉ visited)
    (hnode : store[g]? = some (Graph.update iv ex none)) :
    formatGraph store (fuel + 1) g visited
      = some ("Update(" ++ toString iv ++ ", " ++ toString ex ++ ", " ++ ")",
          g :: visited) := by
  rw [formatGraph, if_neg hg, hnode]

theorem format_eq_update_some (store : List Graph) (fuel g iv ex x : Nat)
    (visited : List Nat) (hg : g ∉ visited)
    (hnode : store[g]? = some (Graph.update iv ex (some x))) :
    formatGraph store (fuel + 1) g visited
      = match formatGraph store fuel x (g :: visited) with
        | some (s, v) =>
            some ("Update(" ++ toString iv ++ ", " ++ toString ex ++ ", "
                    ++ s ++ ")", v)
        | none => none := by
  rw [formatGraph, if_neg hg, hnode]

theorem format_eq_branch_none (store : List Graph) (fuel g iv b : Nat)
    (visited : List Nat) (hg : g ∉ visited)
    (hnode : store[g]? = some (Graph.branch iv b none none)) :
    formatGraph store (fuel + 1) g visited
      = some ("Branch(" ++ toString iv ++ ", " ++ toString b ++ ", " ++ ")",
          g :: visited) := by
  rw [formatGraph, if_neg hg, hnode]

theorem format_eq_branch_else_only (store : List Graph) (fuel g iv b y : Nat)
    (visited : List Nat) (hg : g ∉ visited)
    (hnode : store[g]? = some (Graph.branch iv b none (some y))) :
    formatGraph store (fuel + 1) g visited
      = match formatGraph store fuel y (g :: visited) with
        | some (s, v) =>
            some ("Branch(" ++ toString iv ++ ", " ++ toString b ++ ", "
                    ++ s ++ ")", v)
        | none => none := by
  rw [formatGraph, if_neg hg, hnode]

theorem format_eq_branch_then_only (store : List Graph) (fuel g iv b x : Nat)
    (visited : List Nat) (hg : g ∉ visited)
    (hnode : store[g]? = some (Graph.branch iv b (some x) none)) :
    formatGraph store (fuel + 1) g visited
      = match formatGraph store fuel x (g :: visited) with
        | some (s1, v1) =>
            some ("Branch(" ++ toString iv ++ ", " ++ toString b ++ ", "
                    ++ s1 ++ ", " ++ ")", v1)
        | none => none := by
  rw [formatGraph, if_neg hg, hnode]

theorem format_eq_branch_both (store : List Graph) (fuel g iv b x y : Nat)
    (visited : List Nat) (hg : g ∉ visited)
    (hnode : store[g]? = some (Graph.branch iv b (some x) (some y))) :
    formatGraph store (fuel + 1) g visited
      = match formatGraph store fuel x (g :: visited) with
        | some (s1, v1) =>
            match formatGraph store fuel y v1 with
            | some (s2, v2) =>
                some ("Branch(" ++ toString iv ++ ", " ++ toString b ++ ", "
                        ++ s1 ++ ", " ++ s2 ++ ")", v2)
            | none => none
        | none => none := by
  rw [formatGraph, if_neg hg, hnode]

/-! ### Child-resolved equations of the formatter -/

theorem format_eq_start_some_ok (store : List Graph) (fuel g x : Nat)
    (visited : List Nat) (s1 : String) (v1 : List Nat) (hg : g ∉ visited)
    (hnode : store[g]? = some (Graph.start (some x)))
    (h1 : formatGraph store fuel x (g :: visited) = some (s1, v1)) :
    formatGraph store (fuel + 1) g visited
      = some ("Start(" ++ s1 ++ ")", v1) := by
  rw [format_eq_start_some store fuel g x visited hg hnode, h1]

theorem format_eq_start_some_fail (store : List Graph) (fuel g x : Nat)
    (visited : List Nat) (hg : g ∉ visited)
    (hnode : store[g]? = some (Graph.start (some x)))
    (h1 : formatGraph store fuel x (g :: visited) = none) :
    formatGraph store (fuel + 1) g visited = none := by
  rw [format_eq_start_some store fuel g x visited hg hnode, h1]

theorem format_eq_access_some_ok (store : List Graph) (fuel g m o x : Nat)
    (visited : List Nat) (s1 : String) (v1 : List Nat) (hg : g ∉ visited)
    (hnode : store[g]? = some (Graph.access m o (some x)))
    (h1 : formatGraph store fuel x (g :: visited) = some (s1, v1)) :
    formatGraph store (fuel + 1) g visited
      = some ("Access(" ++ toString m ++ ", " ++ toString o ++ ", "
                ++ s1 ++ ")", v1) := by
  rw [format_eq_access_some store fuel g m o x visited hg hnode, h1]

theorem format_eq_access_some_fail (store : List Graph) (fuel g m o x : Nat)
    (visited : List Nat) (hg : g ∉ visited)
    (hnode : store[g]? = some (Graph.access m o (some x)))
    (h1 : formatGraph store fuel x (g :: visited) = none) :
    formatGraph store (fuel + 1) g visited = none := by
  rw [format_eq_access_some store fuel g m o x visited hg hnode, h1]

theorem format_eq_update_some_ok (store : List Graph) (fuel g iv ex x : Nat)
    (visited : List Nat) (s1 : String) (v1 : List Nat) (hg : g ∉ visited)
    (hnode : store[g]? = some (Graph.update iv ex (some x)))
    (h1 : formatGraph store fuel x (g :: visited) = some (s1, v1)) :
    formatGraph store (fuel + 1) g visited
      = some ("Update(" ++ toString iv ++ ", " ++ toString ex ++ ", "
                ++ s1 ++ ")", v1) := by
  rw [format_eq_update_some store fuel g iv ex x visited hg hnode, h1]

theorem format_eq_update_some_fail (store : List Graph) (fuel g iv ex x : Nat)
    (visited : List Nat) (hg : g ∉ visited)
    (hnode : store[g]? = some (Graph.update iv ex (some x)))
    (h1 : formatGraph store fuel x (g :: visited) = none) :
    formatGraph store (fuel + 1) g visited = none := by
  rw [format_eq_update_some store fuel g iv ex x visited hg hnode, h1]

theorem format_eq_branch_else_only_ok (store : List Graph) (fuel g iv b y : Nat)
    (visited : List Nat) (s1 : String) (v1 : List Nat) (hg : g ∉ visited)
    (hnode : store[g]? = some (Graph.branch iv b none (some y)))
    (h1 : formatGraph store fuel y (g :: visited) = some (s1, v1)) :
    formatGraph store (fuel + 1) g visited
      = some ("Branch(" ++ toString iv ++ ", " ++ toString b ++ ", "
                ++ s1 ++ ")", v1) := by
  rw [format_eq_branch_else_only store fuel g iv b y visited hg hnode, h1]

theorem format_eq_branch_else_only_fail (store : List Graph) (fuel g iv b y : Nat)
    (visited : List Nat) (hg : g ∉ visited)
    (hnode : store[g]? = some (Graph.branch iv b none (some y)))
    (h1 : formatGraph store fuel y (g :: visited) = none) :
    formatGraph store (fuel + 1) g visited = none := by
  rw [format_eq_branch_else_only store fuel g iv b y visited hg hnode, h1]

theorem format_eq_branch_then_only_ok (store : List Graph) (fuel g iv b x : Nat)
    (visited : List Nat) (s1 : String) (v1 : List Nat) (hg : g ∉ visited)
    (hnode : store[g]? = some (Graph.branch iv b (some x) none))
    (h1 : formatGraph store fuel x (g :: visited) = some (s1, v1)) :
    formatGraph store (fuel + 1) g visited
      = some ("Branch(" ++ toString iv ++ ", " ++ toString b ++ ", "
                ++ s1 ++ ", " ++ ")", v1) := by
  rw [format_eq_branch_then_only store fuel g iv b x visited hg hnode, h1]

theorem format_eq_branch_then_only_fail (store : List Graph) (fuel g iv b x : Nat)
    (visited : List Nat) (hg : g ∉ visited)
    (hnode : store[g]? = some (Graph.branch iv b (some x) none))
    (h1 : formatGraph store fuel x (g :: visited) = none) :
    formatGraph store (fuel + 1) g visited = none := by
  rw [format_eq_branch_then_only store fuel g iv b x visited hg hnode, h1]

theorem format_eq_branch_both_ok (store : List Graph) (fuel g iv b x y : Nat)
    (visited : List Nat) (s1 s2 : String) (v1 v2 : List Nat) (hg : g ∉ visited)
    (hnode : store[g]? = some (Graph.branch iv b (some x) (some y)))
    (h1 : formatGraph store fuel x (g :: visited) = some (s1, v1))
    (h2 : formatGraph store fuel y v1 = some (s2, v2)) :
    formatGraph store (fuel + 1) g visited
      = some ("Branch(" ++ toString iv ++ ", " ++ toString b ++ ", "
                ++ s1 ++ ", " ++ s2 ++ ")", v2) := by
  rw [format_eq_branch_both store fuel g iv b x y visited hg hnode, h1]
  dsimp only
  rw [h2]

theorem format_eq_branch_both_fail1 (store : List Graph) (fuel g iv b x y : Nat)
    (visited : List Nat) (hg : g ∉ visited)
    (hnode : store[g]? = some (Graph.branch iv b (some x) (some y)))
    (h1 : formatGraph store fuel x (g :: visited) = none) :
    formatGraph store (fuel + 1) g visited = none := by
  rw [format_eq_branch_both store fuel g iv b x y visited hg hnode, h1]

theorem format_eq_branch_both_fail2 (store : List Graph) (fuel g iv b x y : Nat)
    (visited : List Nat) (s1 : String) (v1 : List Nat) (hg : g ∉ visited)
    (hnode : store[g]? = some (Graph.branch iv b (some x) (some y)))
    (h1 : formatGraph store fuel x (g :: visited) = some (s1, v1))
    (h2 : formatGraph store fuel y v1 = none) :
    formatGraph store (fuel + 1) g visited = none := by
  rw [format_eq_branch_both store fuel g iv b x y visited hg hnode, h1]
  dsimp only
  rw [h2]

theorem format_visited_mono (store : List Graph) :
    ∀ fuel g visited s v,
      formatGraph store fuel g visited = some (s, v) →
      ∀ a, a ∈ visited → a ∈ v := by
  intro fuel
  induction fuel with
  | zero => intro g visited s v h; simp [formatGraph] at h
  | succ fuel ih =>
      intro g visited s v h a ha
      by_cases hg : g ∈ visited
      · rw [format_eq_visited store fuel g visited hg] at h
        cases h; exact ha
      · have ha' : a ∈ g :: visited := List.mem_cons_of_mem _ ha
        cases hnode : store[g]? with
        | none =>
            rw [format_eq_invalid store fuel g visited hg hnode] at h
            cases h; exact ha'
        | some node =>
            cases node with
            | start nxt =>
                cases nxt with
                | none =>
                    rw [format_eq_start_none store fuel g visited hg hnode] at h
                    cases h; exact ha'
                | some x =>
                    cases heq : formatGraph store fuel x (g :: visited) with
                    | none =>
                        rw [format_eq_start_some_fail store fuel g x visited hg hnode
                          heq] at h
                        cases h
                    | some p =>
                        obtain ⟨s1, v1⟩ := p
                        rw [format_eq_start_some_ok store fuel g x visited s1 v1 hg hnode
                          heq] at h
                        cases h
                        exact ih x (g :: visited) s1 v heq a ha'
            | end_ =>
                rw [format_eq_end store fuel g visited hg hnode] at h
                cases h; exact ha'
            | access m o nxt =>
                cases nxt with
                | none =>
                    rw [format_eq_access_none store fuel g m o visited hg hnode] at h
                    cases h; exact ha'
                | some x =>
                    cases heq : formatGraph store fuel x (g :: visited) with
                    | none =>
                        rw [format_eq_access_some_fail store fuel g m o x visited hg hnode
                          heq] at h
                        cases h
                    | some p =>
                        obtain ⟨s1, v1⟩ := p
                        rw [format_eq_access_some_ok store fuel g m o x visited s1 v1 hg
                          hnode heq] at h
                        cases h
                        exact ih x (g :: visited) s1 v heq a ha'
            | update iv ex nxt =>
                cases nxt with
                | none =>
                    rw [format_eq_update_none store fuel g iv ex visited hg hnode] at h
                    cases h; exact ha'
                | some x =>
                    cases heq : formatGraph store fuel x (g :: visited) with
                    | none =>
                        rw [format_eq_update_some_fail store fuel g iv ex x visited hg
                          hnode heq] at h
                        cases h
                    | some p =>
                        obtain ⟨s1, v1⟩ := p
                        rw [format_eq_update_some_ok store fuel g iv ex x visited s1 v1 hg
                          hnode heq] at h
                        cases h
                        exact ih x (g :: visited) s1 v heq a ha'
            | branch iv b t e =>
                cases t with
                | none =>
                    cases e with
                    | none =>
                        rw [format_eq_branch_none store fuel g iv b visited hg hnode] at h
                        cases h; exact ha'
                    | some y =>
                        cases heq : formatGraph store fuel y (g :: visited) with
                        | none =>
                            rw [format_eq_branch_else_only_fail store fuel g iv b y visited
                              hg hnode heq] at h
                            cases h
                        | some p =>
                            obtain ⟨s1, v1⟩ := p
                            rw [format_eq_branch_else_only_ok store fuel g iv b y visited
                              s1 v1 hg hnode heq] at h
                            cases h
                            exact ih y (g :: visited) s1 v heq a ha'
                | some x =>
                    cases e with
                    | none =>
                        cases heq : formatGraph store fuel x (g :: visited) with
                        | none =>
                            rw [format_eq_branch_then_only_fail store fuel g iv b x visited
                              hg hnode heq] at h
                            cases h
                        | some p =>
                            obtain ⟨s1, v1⟩ := p
                            rw [format_eq_branch_then_only_ok store fuel g iv b x visited
                              s1 v1 hg hnode heq] at h
                            cases h
                            exact ih x (g :: visited) s1 v heq a ha'
                    | some y =>
                        cases heq : formatGraph store fuel x (g :: visited) with
                        | none =>
                            rw [format_eq_branch_both_fail1 store fuel g iv b x y visited
                              hg hnode heq] at h
                            cases h
                        | some p =>
                            obtain ⟨s1, v1⟩ := p
                            cases heq2 : formatGraph store fuel y v1 with
                            | none =>
                                rw [format_eq_branch_both_fail2 store fuel g iv b x y
                                  visited s1 v1 hg hnode heq heq2] at h
                                cases h
                            | some q =>
                                obtain ⟨s2, v2⟩ := q
                                rw [format_eq_branch_both_ok store fuel g iv b x y visited
                                  s1 s2 v1 v2 hg hnode heq heq2] at h
                                cases h
                                exact ih y v1 s2 v heq2 a
                                  (ih x (g :: visited) s1 v1 heq a ha')

theorem format_total (store : List Graph) :
    ∀ fuel g visited,
      unseen store.length visited < fuel →
      ∃ s v, formatGraph store fuel g visited = some (s, v) := by
  intro fuel
  induction fuel with
  | zero => intro g visited hfuel; omega
  | succ fuel ih =>
      intro g visited hfuel
      by_cases hg : g ∈ visited
      · exact ⟨"...", visited, format_eq_visited store fuel g visited hg⟩
      · have hle : unseen store.length visited ≤ fuel := Nat.lt_succ_iff.mp hfuel
        cases hnode : store[g]? with
        | none => exact ⟨_, _, format_eq_invalid store fuel g visited hg hnode⟩
        | some node =>
            have hlt : g < store.length := getElem_some_lt hnode
            have hchild : unseen store.length (g :: visited) < fuel :=
              Nat.lt_of_lt_of_le (unseen_cons_lt _ _ _ hlt hg) hle
            cases node with
            | start nxt =>
                cases nxt with
                | none => exact ⟨_, _, format_eq_start_none store fuel g visited hg hnode⟩
                | some x =>
                    obtain ⟨s1, v1, h1⟩ := ih x (g :: visited) hchild
                    exact ⟨_, _,
                      format_eq_start_some_ok store fuel g x visited s1 v1 hg hnode h1⟩
            | end_ => exact ⟨_, _, format_eq_end store fuel g visited hg hnode⟩
            | access m o nxt =>
                cases nxt with
                | none =>
                    exact ⟨_, _, format_eq_access_none store fuel g m o visited hg hnode⟩
                | some x =>
                    obtain ⟨s1, v1, h1⟩ := ih x (g :: visited) hchild
                    exact ⟨_, _,
                      format_eq_access_some_ok store fuel g m o x visited s1 v1 hg hnode h1⟩
            | update iv ex nxt =>
                cases nxt with
                | none =>
                    exact ⟨_, _, format_eq_update_none store fuel g iv ex visited hg hnode⟩
                | some x =>
                    obtain ⟨s1, v1, h1⟩ := ih x (g :: visited) hchild
                    exact ⟨_, _,
                      format_eq_update_some_ok store fuel g iv ex x visited s1 v1 hg hnode h1⟩
            | branch iv b t e =>
                cases t with
                | none =>
                    cases e with
                    | none =>
                        exact ⟨_, _,
                          format_eq_branch_none store fuel g iv b visited hg hnode⟩
                    | some y =>
                        obtain ⟨s1, v1, h1⟩ := ih y (g :: visited) hchild
                        exact ⟨_, _, format_eq_branch_else_only_ok store fuel g iv b y
                          visited s1 v1 hg hnode h1⟩
                | some x =>
                    cases e with
                    | none =>
                        obtain ⟨s1, v1, h1⟩ := ih x (g :: visited) hchild
                        exact ⟨_, _, format_eq_branch_then_only_ok store fuel g iv b x
                          visited s1 v1 hg hnode h1⟩
                    | some y =>
                        obtain ⟨s1, v1, h1⟩ := ih x (g :: visited) hchild
                        have hmono := format_visited_mono store fuel x (g :: visited) s1 v1 h1
                        have hchild2 : unseen store.length v1 < fuel :=
                          Nat.lt_of_le_of_lt (unseen_anti _ _ _ hmono) hchild
                        obtain ⟨s2, v2, h2⟩ := ih y v1 hchild2
                        exact ⟨_, _, format_eq_branch_both_ok store fuel g iv b x y visited
                          s1 s2 v1 v2 hg hnode h1 h2⟩

/-- Claim C5: both cycle-guarded traversals terminate on every graph,
cyclic ones included — with the sufficient fuel `store.length + 1` they
return a result for every store and root.  Concretely, the cyclic graph
`cycleStore` (whose `Branch.then` points back at its `Access` node) indexes
to `cycleCtx` — the revisited `Access` node keeps its original index 0 —
and formats, rendering the back-edge as an ellipsis. -/
theorem traversals_terminate :
    (∀ (store : List Graph) (c : SimulationCtx) (g : Nat),
        (populate_node_info store c g).isSome) ∧
    (∀ (store : List Graph) (g : Nat), (formatTop store g).isSome) ∧
    populate_node_info cycleStore (SimulationCtx.new 0 []) 0 = some cycleCtx ∧
    lookupKey cycleCtx.address_map 1 = some 0 ∧
    formatTop cycleStore 0
      = some "Start(Access(0, 0, Update(0, 0, Branch(0, 0, ..., End))))" := by
  refine ⟨?_, ?_, rfl, rfl, rfl⟩
  · intro store c g
    obtain ⟨c1, h⟩ := populate_node_info_total store c g
    rw [h]; rfl
  · intro store g
    obtain ⟨s, v, h⟩ := format_total store (store.length + 1) g []
      (Nat.lt_succ_of_le (unseen_le _ _))
    rw [formatTop, h]; rfl

/-! ### Elision during rendering -/

theorem wrap_ne_ellipsis (p s q : String) (hp : 4 ≤ p.length) :
    p ++ s ++ q ≠ "..." := by
  intro hcon
  have hlen : (p ++ s ++ q).length = ("..." : String).length := by rw [hcon]
  rw [String.length_append, String.length_append] at hlen
  have h3 : ("..." : String).length = 3 := rfl
  omega

/-- The diamond store of claim C6: a `Branch` whose `then` and `else` both
point at the same `End` node. -/
def dagStore : List Graph := [Graph.branch 0 0 (some 1) (some 1), Graph.end_]

/-- Counterexample to claim C6.  In `dagStore` the `End` node is reached a
second time when it is no longer on the current rendering path, yet the code
renders it as an ellipsis; the path-based rule stated by the spec (embodied
by `formatSpecPath`, modelled from the spec's words) would expand it again,
and the two outputs differ on this input. -/
theorem format_path_elision_counterexample :
    formatTop dagStore 0 = some "Branch(0, 0, End, ...)" ∧
    formatSpecPath dagStore 3 0 [] = some "Branch(0, 0, End, End)" ∧
    ("Branch(0, 0, End, ...)" : String) ≠ "Branch(0, 0, End, End)" :=
  ⟨rfl, rfl, by decide⟩

/-- Claim C6 as amended: a node is rendered as an ellipsis exactly when it
is already in the visited set accumulated over the whole rendering so far —
a superset of the current path.  An already-visited node produces an
ellipsis and leaves the set unchanged; an unvisited node never renders as a
bare ellipsis and ends up recorded in the returned visited set, so it is
expanded at most once per rendering. -/
theorem format_ellipsis_iff_visited (store : List Graph) (fuel g : Nat)
    (visited : List Nat) :
    (g ∈ visited →
      formatGraph store (fuel + 1) g visited = some ("...", visited)) ∧
    (g ∉ visited →
      ∀ s v, formatGraph store (fuel + 1) g visited = some (s, v) →
        s ≠ "..." ∧ g ∈ v) := by
  constructor
  · intro hg
    exact format_eq_visited store fuel g visited hg
  · intro hg s v h
    have hgv : g ∈ g :: visited := List.mem_cons_self _ _
    cases hnode : store[g]? with
    | none =>
        rw [format_eq_invalid store fuel g visited hg hnode] at h
        cases h
        exact ⟨by decide, hgv⟩
    | some node =>
        cases node with
        | start nxt =>
            cases nxt with
            | none =>
                rw [format_eq_start_none store fuel g visited hg hnode] at h
                cases h
                exact ⟨by decide, hgv⟩
            | some x =>
                cases heq : formatGraph store fuel x (g :: visited) with
                | none =>
                    rw [format_eq_start_some_fail store fuel g x visited hg hnode heq] at h
                    cases h
                | some p =>
                    obtain ⟨s1, v1⟩ := p
                    rw [format_eq_start_some_ok store fuel g x visited s1 v1 hg hnode
                      heq] at h
                    cases h
                    refine ⟨wrap_ne_ellipsis _ _ _ (by decide), ?_⟩
                    exact format_visited_mono store fuel x (g :: visited) s1 v heq g hgv
        | end_ =>
            rw [format_eq_end store fuel g visited hg hnode] at h
            cases h
            exact ⟨by decide, hgv⟩
        | access m o nxt =>
            cases nxt with
            | none =>
                rw [format_eq_access_none store fuel g m o visited hg hnode] at h
                cases h
                refine ⟨wrap_ne_ellipsis _ _ _ ?_, hgv⟩
                simp only [String.length_append]
                have h7 : ("Access(" : String).length = 7 := rfl
                omega
            | some x =>
                cases heq : formatGraph store fuel x (g :: visited) with
                | none =>
                    rw [format_eq_access_some_fail store fuel g m o x visited hg hnode
                      heq] at h
                    cases h
                | some p =>
                    obtain ⟨s1, v1⟩ := p
                    rw [format_eq_access_some_ok store fuel g m o x visited s1 v1 hg hnode
                      heq] at h
                    cases h
                    refine ⟨wrap_ne_ellipsis _ _ _ ?_, ?_⟩
                    · simp only [String.length_append]
                      have h7 : ("Access(" : String).length = 7 := rfl
                      omega
                    · exact format_visited_mono store fuel x (g :: visited) s1 v heq g hgv
        | update iv ex nxt =>
            cases nxt with
            | none =>
                rw [format_eq_update_none store fuel g iv ex visited hg hnode] at h
                cases h
                refine ⟨wrap_ne_ellipsis _ _ _ ?_, hgv⟩
                simp only [String.length_append]
                have h7 : ("Update(" : String).length = 7 := rfl
                omega
            | some x =>
                cases heq : formatGraph store fuel x (g :: visited) with
                | none =>
                    rw [format_eq_update_some_fail store fuel g iv ex x visited hg hnode
                      heq] at h
                    cases h
                | some p =>
                    obtain ⟨s1, v1⟩ := p
                    rw [format_eq_update_some_ok store fuel g iv ex x visited s1 v1 hg
                      hnode heq] at h
                    cases h
                    refine ⟨wrap_ne_ellipsis _ _ _ ?_, ?_⟩
                    · simp only [String.length_append]
                      have h7 : ("Update(" : String).length = 7 := rfl
                      omega
                    · exact format_visited_mono store fuel x (g :: visited) s1 v heq g hgv
        | branch iv b t e =>
            have h7 : ("Branch(" : String).length = 7 := rfl
            cases t with
            | none =>
                cases e with
                | none =>
                    rw [format_eq_branch_none store fuel g iv b visited hg hnode] at h
                    cases h
                    refine ⟨wrap_ne_ellipsis _ _ _ ?_, hgv⟩
                    simp only [String.length_append]
                    omega
                | some y =>
                    cases heq : formatGraph store fuel y (g :: visited) with
                    | none =>
                        rw [format_eq_branch_else_only_fail store fuel g iv b y visited hg
                          hnode heq] at h
                        cases h
                    | some p =>
                        obtain ⟨s1, v1⟩ := p
                        rw [format_eq_branch_else_only_ok store fuel g iv b y visited s1 v1
                          hg hnode heq] at h
                        cases h
                        refine ⟨wrap_ne_ellipsis _ _ _ ?_, ?_⟩
                        · simp only [String.length_append]
                          omega
                        · exact format_visited_mono store fuel y (g :: visited) s1 v heq
                            g hgv
            | some x =>
                cases e with
                | none =>
                    cases heq : formatGraph store fuel x (g :: visited) with
                    | none =>
                        rw [format_eq_branch_then_only_fail store fuel g iv b x visited hg
                          hnode heq] at h
                        cases h
                    | some p =>
                        obtain ⟨s1, v1⟩ := p
                        rw [format_eq_branch_then_only_ok store fuel g iv b x visited s1 v1
                          hg hnode heq] at h
                        cases h
                        refine ⟨wrap_ne_ellipsis _ _ _ ?_, ?_⟩
                        · simp only [String.length_append]
                          omega
                        · exact format_visited_mono store fuel x (g :: visited) s1 v heq
                            g hgv
                | some y =>
                    cases heq : formatGraph store fuel x (g :: visited) with
                    | none =>
                        rw [format_eq_branch_both_fail1 store fuel g iv b x y visited hg
                          hnode heq] at h
                        cases h
                    | some p =>
                        obtain ⟨s1, v1⟩ := p
                        cases heq2 : formatGraph store fuel y v1 with
                        | none =>
                            rw [format_eq_branch_both_fail2 store fuel g iv b x y visited
                              s1 v1 hg hnode heq heq2] at h
                            cases h
                        | some q =>
                            obtain ⟨s2, v2⟩ := q
                            rw [format_eq_branch_both_ok store fuel g iv b x y visited s1
                              s2 v1 v2 hg hnode heq heq2] at h
                            cases h
                            refine ⟨wrap_ne_ellipsis _ _ _ ?_, ?_⟩
                            · simp only [String.length_append]
                              omega
                            · exact format_visited_mono store fuel y v1 s2 v heq2 g
                                (format_visited_mono store fuel x (g :: visited) s1 v1 heq
                                  g hgv)

/-- Witness for the amended claim C6's theorem: in the diamond graph the
`End` node is elided on its second occurrence and recorded after its
first. -/
theorem format_ellipsis_iff_visited_check :
    formatGraph dagStore 2 1 [1, 0] = some ("...", [1, 0]) ∧
    (("End" : String) ≠ "..." ∧ 1 ∈ [1, 0]) :=
  ⟨(format_ellipsis_iff_visited dagStore 1 1 [1, 0]).1 (by decide),
   (format_ellipsis_iff_visited dagStore 1 1 [0]).2 (by decide) "End" [1, 0] rfl⟩

/-! ### Contexts reachable by the indexing phase -/

theorem indexInv_new (bs : Nat) (va : List Nat) :
    indexInv (SimulationCtx.new bs va) :=
  ⟨List.nodup_nil, rfl⟩

theorem populate_node_info_indexInv (store : List Graph)
    (c c1 : SimulationCtx) (g : Nat)
    (h : populate_node_info store c g = some c1) (hc : indexInv c) :
    indexInv c1 := by
  unfold populate_node_info at h
  cases himpl : populate_node_info_impl store (store.length + 1) g c [] with
  | none => rw [himpl] at h; cases h
  | some p =>
      obtain ⟨ca, va⟩ := p
      rw [himpl] at h
      simp at h
      subst h
      exact populate_impl_indexInv store _ _ _ _ _ _ himpl hc

theorem populate_node_info_fields (store : List Graph)
    (c c1 : SimulationCtx) (g : Nat)
    (h : populate_node_info store c g = some c1) :
    c1.logic_time = c.logic_time ∧ c1.access_time = c.access_time ∧
    ((∀ x ∈ c.node_info, x = []) → ∀ x ∈ c1.node_info, x = []) := by
  unfold populate_node_info at h
  cases himpl : populate_node_info_impl store (store.length + 1) g c [] with
  | none => rw [himpl] at h; cases h
  | some p =>
      obtain ⟨ca, va⟩ := p
      rw [himpl] at h
      simp at h
      subst h
      exact populate_impl_fields store _ _ _ _ _ _ himpl

theorem populateSeq_inv (store : List Graph) :
    ∀ (roots : List Nat) (c c1 : SimulationCtx),
      populateSeq store roots c = some c1 → indexInv c → indexInv c1 := by
  intro roots
  induction roots with
  | nil => intro c c1 h hc; cases h; exact hc
  | cons r rs ih =>
      intro c c1 h hc
      rw [populateSeq] at h
      cases hp : populate_node_info store c r with
      | none => rw [hp] at h; cases h
      | some ca =>
          rw [hp] at h
          exact ih ca c1 h (populate_node_info_indexInv store c ca r hp hc)

theorem populateSeq_fresh (store : List Graph) :
    ∀ (roots : List Nat) (c c1 : SimulationCtx),
      populateSeq store roots c = some c1 →
      c1.logic_time = c.logic_time ∧ c1.access_time = c.access_time ∧
      ((∀ x ∈ c.node_info, x = []) → ∀ x ∈ c1.node_info, x = []) := by
  intro roots
  induction roots with
  | nil => intro c c1 h; cases h; exact ⟨rfl, rfl, fun he => he⟩
  | cons r rs ih =>
      intro c c1 h
      rw [populateSeq] at h
      cases hp : populate_node_info store c r with
      | none => rw [hp] at h; cases h
      | some ca =>
          rw [hp] at h
          obtain ⟨h1, h2, h3⟩ := populate_node_info_fields store c ca r hp
          obtain ⟨g1, g2, g3⟩ := ih ca c1 h
          exact ⟨by rw [g1, h1], by rw [g2, h2], fun he => g3 (h3 he)⟩

theorem indexInv_lookup_lt (c : SimulationCtx) (g i : Nat)
    (h : indexInv c) (hl : lookupKey c.address_map g = some i) :
    i < c.node_info.length := by
  have hmem : (g, i) ∈ c.address_map := lookupKey_mem _ _ _ hl
  have hval : i ∈ c.address_map.map Prod.snd := List.mem_map_of_mem _ hmem
  rw [h.2] at hval
  exact List.mem_range.mp hval

/-- Claim C10: after any sequence of indexing passes on a fresh context, the
identity-to-index map has distinct keys, its values are exactly
`0, …, L-1` for `L` the number of histograms, every mapped index is in
bounds for the histogram table, and the map is injective. -/
theorem address_map_dense_injective (store : List Graph) (roots : List Nat)
    (bs : Nat) (va : List Nat) (c : SimulationCtx)
    (h : populateSeq store roots (SimulationCtx.new bs va) = some c) :
    (keysOf c.address_map).Nodup ∧
    c.address_map.map Prod.snd = List.range c.node_info.length ∧
    (∀ g i, lookupKey c.address_map g = some i → i < c.node_info.length) ∧
    (∀ g1 g2 i, lookupKey c.address_map g1 = some i →
      lookupKey c.address_map g2 = some i → g1 = g2) := by
  obtain ⟨h1, h2⟩ := populateSeq_inv store roots _ c h (indexInv_new bs va)
  refine ⟨h1, h2, ?_, ?_⟩
  · intro g i hl
    exact indexInv_lookup_lt c g i ⟨h1, h2⟩ hl
  · intro g1 g2 i hl1 hl2
    have hm1 : (g1, i) ∈ c.address_map := lookupKey_mem _ _ _ hl1
    have hm2 : (g2, i) ∈ c.address_map := lookupKey_mem _ _ _ hl2
    have hnd : (c.address_map.map Prod.snd).Nodup := by
      rw [h2]; exact List.nodup_range _
    have heq : (g1, i) = (g2, i) :=
      List.inj_on_of_nodup_map hnd hm1 hm2 rfl
    exact congrArg Prod.fst heq

/-- Witness for claim C10's theorem at the indexed cyclic graph. -/
theorem address_map_dense_injective_check :
    (keysOf cycleCtx.address_map).Nodup ∧
    cycleCtx.address_map.map Prod.snd = List.range cycleCtx.node_info.length ∧
    (∀ g i, lookupKey cycleCtx.address_map g = some i →
      i < cycleCtx.node_info.length) ∧
    (∀ g1 g2 i, lookupKey cycleCtx.address_map g1 = some i →
      lookupKey cycleCtx.address_map g2 = some i → g1 = g2) :=
  address_map_dense_injective cycleStore [0] 0 [] cycleCtx rfl

/-- Claim C7: after the indexing phase, `get_node_dist` returns the indexed
node's histogram for every identity in the map (the mapped index being in
bounds) and `none` for every identity never indexed. -/
theorem get_node_dist_spec (store : List Graph) (roots : List Nat)
    (bs : Nat) (va : List Nat) (c : SimulationCtx) (g : Nat)
    (h : populateSeq store roots (SimulationCtx.new bs va) = some c) :
    (lookupKey c.address_map g = none → c.get_node_dist g = none) ∧
    (∀ i, lookupKey c.address_map g = some i →
      c.get_node_dist g = some (c.node_info.getD i []) ∧
      i < c.node_info.length) := by
  constructor
  · intro hl
    unfold SimulationCtx.get_node_dist
    rw [hl]
    rfl
  · intro i hl
    have hinv := populateSeq_inv store roots _ c h (indexInv_new bs va)
    have hib : i < c.node_info.length := indexInv_lookup_lt c g i hinv hl
    have hgi : c.node_info[i]? = some c.node_info[i] := List.getElem?_eq_getElem hib
    refine ⟨?_, hib⟩
    unfold SimulationCtx.get_node_dist
    rw [hl]
    show c.node_info[i]? = some (c.node_info.getD i [])
    rw [hgi, List.getD_eq_getElem?_getD, hgi]
    rfl

/-- Witness for claim C7's theorem: in the indexed cyclic graph, identity 1
(the Access node) yields its histogram and identity 0 yields nothing. -/
theorem get_node_dist_spec_check :
    (lookupKey cycleCtx.address_map 0 = none →
      cycleCtx.get_node_dist 0 = none) ∧
    (∀ i, lookupKey cycleCtx.address_map 1 = some i →
      cycleCtx.get_node_dist 1 = some (cycleCtx.node_info.getD i []) ∧
      i < cycleCtx.node_info.length) :=
  ⟨(get_node_dist_spec cycleStore [0] 0 [] cycleCtx 0 rfl).1,
   (get_node_dist_spec cycleStore [0] 0 [] cycleCtx 1 rfl).2⟩

/-- Claim C9: from a context produced by the indexing phase on a fresh
context, a sequence of `n` in-range access events leaves the logical clock
at `n`, and the total of all histogram counts plus the number of blocks in
the last-seen table equals `n`. -/
theorem access_conservation (store : List Graph) (roots : List Nat)
    (bs : Nat) (va : List Nat) (c0 : SimulationCtx) (evs : List (Nat × Nat))
    (hpop : populateSeq store roots (SimulationCtx.new bs va) = some c0)
    (hin : ∀ e ∈ evs, e.1 < c0.node_info.length) :
    (accessSeq c0 evs).logic_time = evs.length ∧
    totalCount (accessSeq c0 evs)
      + (accessSeq c0 evs).access_time.length = evs.length := by
  obtain ⟨hlt0, hat0, hni0⟩ := populateSeq_fresh store roots _ c0 hpop
  have hempty : ∀ x ∈ c0.node_info, x = [] := by
    refine hni0 ?_
    intro x hx
    exact absurd hx (List.not_mem_nil x)
  have htimes : timesLT c0 := by
    intro p hp
    rw [hat0] at hp
    exact absurd hp (List.not_mem_nil p)
  obtain ⟨h1, h2, -, -⟩ := accessSeq_inv evs c0 htimes hin
  have htc0 : totalCount c0 = 0 := by
    unfold totalCount
    refine List.sum_eq_zero ?_
    intro y hy
    obtain ⟨x, hx, hxy⟩ := List.mem_map.mp hy
    rw [← hxy, hempty x hx]
    rfl
  have hat0len : c0.access_time.length = 0 := by rw [hat0]; rfl
  have hlt0' : c0.logic_time = 0 := by rw [hlt0]; rfl
  constructor
  · rw [h1, hlt0']; omega
  · omega

/-- Witness for claim C9's theorem: two touches of one block through the
indexed cyclic graph's single access node. -/
theorem access_conservation_check :
    (accessSeq cycleCtx [(0, 5), (0, 5)]).logic_time = 2 ∧
    totalCount (accessSeq cycleCtx [(0, 5), (0, 5)])
      + (accessSeq cycleCtx [(0, 5), (0, 5)]).access_time.length = 2 := by
  have h := access_conservation cycleStore [0] 0 [] cycleCtx [(0, 5), (0, 5)]
    rfl (by decide)
  simpa using h

/-! ### Patch operations -/

theorem start_set_next_eq (store : List Graph) (i : Nat) (lnk : Option Nat) :
    slap_graph_start_set_next store (some i) lnk
      = match store[i]? with
        | some (Graph.start _) => store.set i (Graph.start lnk)
        | _ => store := rfl

theorem access_set_next_eq (store : List Graph) (i : Nat) (lnk : Option Nat) :
    slap_graph_access_set_next store (some i) lnk
      = match store[i]? with
        | some (Graph.access m o _) => store.set i (Graph.access m o lnk)
        | _ => store := rfl

theorem update_set_next_eq (store : List Graph) (i : Nat) (lnk : Option Nat) :
    slap_graph_update_set_next store (some i) lnk
      = match store[i]? with
        | some (Graph.update iv ex _) => store.set i (Graph.update iv ex lnk)
        | _ => store := rfl

theorem branch_set_then_eq (store : List Graph) (i : Nat) (lnk : Option Nat) :
    slap_graph_branch_set_then store (some i) lnk
      = match store[i]? with
        | some (Graph.branch iv b _ e) => store.set i (Graph.branch iv b lnk e)
        | _ => store := rfl

theorem branch_set_else_eq (store : List Graph) (i : Nat) (lnk : Option Nat) :
    slap_graph_branch_set_else store (some i) lnk
      = match store[i]? with
        | some (Graph.branch iv b t _) => store.set i (Graph.branch iv b t lnk)
        | _ => store := rfl

/-- Claim C8: each patch operation is a no-op on a null target, an invalid
identity, or a node of the wrong variant; on a node of the right variant it
overwrites exactly the corresponding link in place, preserving the node's
other fields and leaving every other slot of the store untouched. -/
theorem patch_ops_spec (store : List Graph) (lnk : Option Nat) :
    (slap_graph_start_set_next store none lnk = store ∧
     slap_graph_access_set_next store none lnk = store ∧
     slap_graph_update_set_next store none lnk = store ∧
     slap_graph_branch_set_then store none lnk = store ∧
     slap_graph_branch_set_else store none lnk = store) ∧
    ((∀ i, (∀ n0, store[i]? ≠ some (Graph.start n0)) →
        slap_graph_start_set_next store (some i) lnk = store) ∧
     (∀ i, (∀ m o n0, store[i]? ≠ some (Graph.access m o n0)) →
        slap_graph_access_set_next store (some i) lnk = store) ∧
     (∀ i, (∀ iv ex n0, store[i]? ≠ some (Graph.update iv ex n0)) →
        slap_graph_update_set_next store (some i) lnk = store) ∧
     (∀ i, (∀ iv b t e, store[i]? ≠ some (Graph.branch iv b t e)) →
        slap_graph_branch_set_then store (some i) lnk = store) ∧
     (∀ i, (∀ iv b t e, store[i]? ≠ some (Graph.branch iv b t e)) →
        slap_graph_branch_set_else store (some i) lnk = store)) ∧
    ((∀ i n0, store[i]? = some (Graph.start n0) →
        (slap_graph_start_set_next store (some i) lnk)[i]?
          = some (Graph.start lnk) ∧
        ∀ j, j ≠ i → (slap_graph_start_set_next store (some i) lnk)[j]?
          = store[j]?) ∧
     (∀ i m o n0, store[i]? = some (Graph.access m o n0) →
        (slap_graph_access_set_next store (some i) lnk)[i]?
          = some (Graph.access m o lnk) ∧
        ∀ j, j ≠ i → (slap_graph_access_set_next store (some i) lnk)[j]?
          = store[j]?) ∧
     (∀ i iv ex n0, store[i]? = some (Graph.update iv ex n0) →
        (slap_graph_update_set_next store (some i) lnk)[i]?
          = some (Graph.update iv ex lnk) ∧
        ∀ j, j ≠ i → (slap_graph_update_set_next store (some i) lnk)[j]?
          = store[j]?) ∧
     (∀ i iv b t e, store[i]? = some (Graph.branch iv b t e) →
        (slap_graph_branch_set_then store (some i) lnk)[i]?
          = some (Graph.branch iv b lnk e) ∧
        ∀ j, j ≠ i → (slap_graph_branch_set_then store (some i) lnk)[j]?
          = store[j]?) ∧
     (∀ i iv b t e, store[i]? = some (Graph.branch iv b t e) →
        (slap_graph_branch_set_else store (some i) lnk)[i]?
          = some (Graph.branch iv b t lnk) ∧
        ∀ j, j ≠ i → (slap_graph_branch_set_else store (some i) lnk)[j]?
          = store[j]?)) := by
  refine ⟨⟨rfl, rfl, rfl, rfl, rfl⟩, ⟨?_, ?_, ?_, ?_, ?_⟩, ⟨?_, ?_, ?_, ?_, ?_⟩⟩
  · intro i hne
    rw [start_set_next_eq]
    cases hnode : store[i]? with
    | none => rfl
    | some node =>
        cases node with
        | start n0 => exact absurd hnode (hne n0)
        | end_ => rfl
        | access m o nx => rfl
        | update iv ex nx => rfl
        | branch iv b t e => rfl
  · intro i hne
    rw [access_set_next_eq]
    cases hnode : store[i]? with
    | none => rfl
    | some node =>
        cases node with
        | start n0 => rfl
        | end_ => rfl
        | access m o nx => exact absurd hnode (hne m o nx)
        | update iv ex nx => rfl
        | branch iv b t e => rfl
  · intro i hne
    rw [update_set_next_eq]
    cases hnode : store[i]? with
    | none => rfl
    | some node =>
        cases node with
        | start n0 => rfl
        | end_ => rfl
        | access m o nx => rfl
        | update iv ex nx => exact absurd hnode (hne iv ex nx)
        | branch iv b t e => rfl
  · intro i hne
    rw [branch_set_then_eq]
    cases hnode : store[i]? with
    | none => rfl
    | some node =>
        cases node with
        | start n0 => rfl
        | end_ => rfl
        | access m o nx => rfl
        | update iv ex nx => rfl
        | branch iv b t e => exact absurd hnode (hne iv b t e)
  · intro i hne
    rw [branch_set_else_eq]
    cases hnode : store[i]? with
    | none => rfl
    | some node =>
        cases node with
        | start n0 => rfl
        | end_ => rfl
        | access m o nx => rfl
        | update iv ex nx => rfl
        | branch iv b t e => exact absurd hnode (hne iv b t e)
  · intro i n0 hnode
    have hlt : i < store.length := getElem_some_lt hnode
    rw [start_set_next_eq, hnode]
    exact ⟨List.getElem?_set_self hlt, fun j hj => List.getElem?_set_ne (fun h => hj h.symm)⟩
  · intro i m o n0 hnode
    have hlt : i < store.length := getElem_some_lt hnode
    rw [access_set_next_eq, hnode]
    exact ⟨List.getElem?_set_self hlt, fun j hj => List.getElem?_set_ne (fun h => hj h.symm)⟩
  · intro i iv ex n0 hnode
    have hlt : i < store.length := getElem_some_lt hnode
    rw [update_set_next_eq, hnode]
    exact ⟨List.getElem?_set_self hlt, fun j hj => List.getElem?_set_ne (fun h => hj h.symm)⟩
  · intro i iv b t e hnode
    have hlt : i < store.length := getElem_some_lt hnode
    rw [branch_set_then_eq, hnode]
    exact ⟨List.getElem?_set_self hlt, fun j hj => List.getElem?_set_ne (fun h => hj h.symm)⟩
  · intro i iv b t e hnode
    have hlt : i < store.length := getElem_some_lt hnode
    rw [branch_set_else_eq, hnode]
    exact ⟨List.getElem?_set_self hlt, fun j hj => List.getElem?_set_ne (fun h => hj h.symm)⟩

/-- Witness for claim C8's theorem: patching a `Start` node's link succeeds
in place, and aiming `set_next` at an `End` node is a no-op. -/
theorem patch_ops_spec_check :
    ((slap_graph_start_set_next [Graph.start none, Graph.end_] (some 0)
        (some 1))[0]? = some (Graph.start (some 1)) ∧
      (∀ j, j ≠ 0 → (slap_graph_start_set_next [Graph.start none, Graph.end_]
        (some 0) (some 1))[j]? = ([Graph.start none, Graph.end_] : List Graph)[j]?)) ∧
    slap_graph_start_set_next [Graph.start none, Graph.end_] (some 1) (some 0)
      = [Graph.start none, Graph.end_] :=
  ⟨(patch_ops_spec [Graph.start none, Graph.end_] (some 1)).2.2.1 0 none rfl,
   (patch_ops_spec [Graph.start none, Graph.end_] (some 0)).2.1.1 1
     (fun n0 h => by simp at h)⟩
